import Mathlib

/-!
Verification development for the resume relevance check system.

The Python backend is shallowly embedded: pure text processing is embedded
directly (including a small backtracking regular-expression engine mirroring
the `re.sub` calls of `TextPreprocessor.preprocess_text`); machine floats are
modelled as exact rationals where only exact arithmetic occurs, and as an
explicit IEEE-style type with `nan`/`inf` where the code can produce `nan`;
external capabilities (the fuzzywuzzy scorer, the spaCy analyzer, the
sentence-transformer model, the OpenAI/HuggingFace advisors) are parameters of
an environment record, with a `none` result standing for a raised exception of
the external call, so the `try/except` structure of the services is explicit.
-/

namespace RRCS

/-- ASCII whitespace recognized by Python's regex class `\s` and `str.split`
(space, tab, newline, carriage return, vertical tab, form feed). -/
def isSpaceChar (c : Char) : Bool :=
  c = ' ' || c = '\t' || c = '\n' || c = '\r' || c = '\x0b' || c = '\x0c'

/-- Python's regex class `\w` restricted to ASCII: letters, digits, underscore. -/
def isWordChar (c : Char) : Bool :=
  ('a' ≤ c && c ≤ 'z') || ('A' ≤ c && c ≤ 'Z') || ('0' ≤ c && c ≤ '9') || c = '_'

/-- ASCII uppercase letter. -/
def isAsciiUpper (c : Char) : Bool := 'A' ≤ c && c ≤ 'Z'

/-- ASCII lowercase letter. -/
def isAsciiLower (c : Char) : Bool := 'a' ≤ c && c ≤ 'z'

/-- ASCII digit, Python's regex class `\d` restricted to ASCII. -/
def isDigitChar (c : Char) : Bool := '0' ≤ c && c ≤ '9'

/-- ASCII hexadecimal digit, the class `[0-9a-fA-F]`. -/
def isHexChar (c : Char) : Bool :=
  isDigitChar c || ('a' ≤ c && c ≤ 'f') || ('A' ≤ c && c ≤ 'F')

/-- The ASCII uppercase letters. -/
def upperChars : List Char :=
  ['A', 'B', 'C', 'D', 'E', 'F', 'G', 'H', 'I', 'J', 'K', 'L', 'M',
   'N', 'O', 'P', 'Q', 'R', 'S', 'T', 'U', 'V', 'W', 'X', 'Y', 'Z']

/-- `str.lower()` on one character, restricted to the ASCII case mapping (the
texts the claims exercise are ASCII; Unicode case folding is out of scope). -/
def pyLowerChar (c : Char) : Char := Char.toLower c

/-- `str.lower()` restricted to ASCII case mapping. -/
def toLowerStr (s : String) : String := ⟨s.data.map pyLowerChar⟩

/-- Regular expressions, covering the constructs used by
`TextPreprocessor.preprocess_text`: character classes, concatenation,
alternation, greedy `?`, greedy `*`, and the word boundary `\b`.
Counted repetitions are derived below. -/
inductive RE where
  | eps : RE
  | cls : (Char → Bool) → RE
  | seq : RE → RE → RE
  | alt : RE → RE → RE
  | opt : RE → RE
  | star : RE → RE
  | wb : RE

/-- A literal string as a regex. -/
def RE.lit (l : List Char) : RE :=
  l.foldr (fun c r => RE.seq (RE.cls (fun d => d = c)) r) RE.eps

/-- Greedy `a+`, as `a` followed by greedy `a*` (same backtracking order). -/
def RE.plus (a : RE) : RE := RE.seq a (RE.star a)

/-- Exactly `n` copies of `a`. -/
def RE.repExact (a : RE) : Nat → RE
  | 0 => RE.eps
  | n + 1 => RE.seq a (RE.repExact a n)

/-- Greedy `a{0,n}`: nested greedy options, longest attempt first. -/
def RE.repOpt (a : RE) : Nat → RE
  | 0 => RE.eps
  | n + 1 => RE.opt (RE.seq a (RE.repOpt a n))

/-- Greedy `a{lo,hi}`. -/
def RE.repRange (a : RE) (lo hi : Nat) : RE :=
  RE.seq (RE.repExact a lo) (RE.repOpt a (hi - lo))

/-- Greedy `a{lo,}`. -/
def RE.repMin (a : RE) (lo : Nat) : RE :=
  RE.seq (RE.repExact a lo) (RE.star a)

/-- The continuation type of the backtracking matcher: it receives the last
consumed character (context for `\b`) and the remaining input. -/
def MK : Type := Option Char → List Char → Option (Option Char × List Char)

/-- One fuel level of the backtracking matcher, structurally recursive on the
pattern; alternatives are tried left first and quantifiers greedily, as
Python's `re` does, and the first success wins.  A `star` iteration descends
to the next fuel level through `deeper`. -/
def matchStep (deeper : RE → Option Char → List Char → MK →
    Option (Option Char × List Char)) :
    RE → Option Char → List Char → MK → Option (Option Char × List Char)
  | RE.eps, prev, s, k => k prev s
  | RE.wb, prev, s, k =>
      let before := match prev with | some c => isWordChar c | none => false
      let after := match s with | c :: _ => isWordChar c | [] => false
      if before ≠ after then k prev s else none
  | RE.cls p, _, s, k =>
      match s with
      | [] => none
      | c :: cs => if p c then k (some c) cs else none
  | RE.seq a b, prev, s, k =>
      matchStep deeper a prev s (fun p2 s2 => matchStep deeper b p2 s2 k)
  | RE.alt a b, prev, s, k =>
      (matchStep deeper a prev s k) <|> (matchStep deeper b prev s k)
  | RE.opt a, prev, s, k =>
      (matchStep deeper a prev s k) <|> k prev s
  | RE.star a, prev, s, k =>
      (matchStep deeper a prev s (fun p2 s2 => deeper (RE.star a) p2 s2 k)) <|>
        k prev s

/-- Fuel-indexed matcher.  Every `star` body in the patterns below consumes at
least one character per iteration, so `input length + 1` fuel never runs out. -/
def matchFuel : Nat → RE → Option Char → List Char → MK →
    Option (Option Char × List Char)
  | 0, _, _, _, _ => none
  | fuel + 1, re, prev, s, k => matchStep (matchFuel fuel) re prev s k

/-- Try to match `re` at the head of `s` (with `prev` the character just
before the current position); on success return the last consumed character
and the remaining suffix.  The `isSuffixOf` guard merely records, at run
time, that the matcher only consumes from the front; it always passes. -/
def tryMatchAt (re : RE) (prev : Option Char) (s : List Char) :
    Option (Option Char × List Char) :=
  match matchFuel (s.length + 1) re prev s (fun p2 s2 => some (p2, s2)) with
  | some (p2, s2) => if s2.isSuffixOf s then some (p2, s2) else none
  | none => none

/-- `re.sub(pattern, '', text)`: scan left to right, delete every leftmost
non-overlapping match, keep other characters.  A (never occurring here)
empty match falls through to emitting one character, which also guarantees
progress. -/
def reSubDel : Nat → RE → Option Char → List Char → List Char
  | 0, _, _, s => s
  | fuel + 1, re, prev, s =>
      match tryMatchAt re prev s with
      | some (p2, s2) =>
          if s2.length < s.length then reSubDel fuel re p2 s2
          else
            match s with
            | [] => []
            | c :: cs => c :: reSubDel fuel re (some c) cs
      | none =>
          match s with
          | [] => []
          | c :: cs => c :: reSubDel fuel re (some c) cs

/-- Apply a deleting substitution over a whole character list. -/
def applyReSub (re : RE) (s : List Char) : List Char :=
  reSubDel (s.length + 1) re none s

/-- `re.sub(r'\s+', ' ', text)`: collapse every whitespace run to one space.
The boolean records whether the previous character was whitespace. -/
def collapseWsAux : Bool → List Char → List Char
  | _, [] => []
  | prevSpace, c :: cs =>
      if isSpaceChar c then
        (if prevSpace then [] else [' ']) ++ collapseWsAux true cs
      else c :: collapseWsAux false cs

/-- `re.sub(r'[^\w\s]', ' ', text)`: the class matches one character, so the
substitution is a character-wise map replacing punctuation with a space. -/
def punctToSpace (s : List Char) : List Char :=
  s.map (fun c => if !isWordChar c && !isSpaceChar c then ' ' else c)

/-- `str.split()` with no argument: split on whitespace runs, no empty pieces.
`cur` accumulates the current piece in reverse. -/
def pySplitWsAux (cur : List Char) : List Char → List (List Char)
  | [] => if cur.isEmpty then [] else [cur.reverse]
  | c :: cs =>
      if isSpaceChar c then
        if cur.isEmpty then pySplitWsAux [] cs
        else cur.reverse :: pySplitWsAux [] cs
      else pySplitWsAux (c :: cur) cs

/-- `str.split()` on a character list. -/
def pySplitWs (s : List Char) : List (List Char) := pySplitWsAux [] s

/-- `' '.join(pieces)` on character lists. -/
def joinPieces : List (List Char) → List Char
  | [] => []
  | [p] => p
  | p :: q :: rest => p ++ ' ' :: joinPieces (q :: rest)

/-- `str.strip()`: drop leading and trailing whitespace. -/
def pyStrip (s : List Char) : List Char :=
  ((s.dropWhile isSpaceChar).reverse.dropWhile isSpaceChar).reverse

/-- The URL pattern of `preprocess_text`:
`http[s]?://(?:[a-zA-Z]|[0-9]|[$-_@.&+]|[!*\\(\\),]|(?:%[0-9a-fA-F][0-9a-fA-F]))+`.
The class `[$-_@.&+]` is the character range `$`..`_` plus `@.&+` (all of which
already lie in the range); `[!*\\(\\),]` contains `! * \ ( ) ,`. -/
def urlRE : RE :=
  RE.seq (RE.lit ['h', 't', 't', 'p'])
    (RE.seq (RE.opt (RE.cls (fun c => c = 's')))
      (RE.seq (RE.lit [':', '/', '/'])
        (RE.plus
          (RE.alt (RE.cls (fun c => isAsciiLower c || isAsciiUpper c))
            (RE.alt (RE.cls isDigitChar)
              (RE.alt (RE.cls (fun c => ('$' ≤ c && c ≤ '_') ||
                  c = '@' || c = '.' || c = '&' || c = '+'))
                (RE.alt (RE.cls (fun c => c = '!' || c = '*' || c = '\\' ||
                    c = '(' || c = ')' || c = ','))
                  (RE.seq (RE.cls (fun c => c = '%'))
                    (RE.seq (RE.cls isHexChar) (RE.cls isHexChar))))))))))

/-- The email pattern of `preprocess_text`:
`\b[A-Za-z0-9._%+-]+@[A-Za-z0-9.-]+\.[A-Z|a-z]{2,}\b`.
The class `[A-Z|a-z]` literally contains `|` as the source writes it. -/
def emailRE : RE :=
  RE.seq RE.wb
    (RE.seq (RE.plus (RE.cls (fun c => isAsciiLower c || isAsciiUpper c ||
        isDigitChar c || c = '.' || c = '_' || c = '%' || c = '+' || c = '-')))
      (RE.seq (RE.cls (fun c => c = '@'))
        (RE.seq (RE.plus (RE.cls (fun c => isAsciiLower c || isAsciiUpper c ||
            isDigitChar c || c = '.' || c = '-')))
          (RE.seq (RE.cls (fun c => c = '.'))
            (RE.seq (RE.repMin (RE.cls (fun c => isAsciiUpper c || c = '|' ||
                isAsciiLower c)) 2)
              RE.wb)))))

/-- The phone pattern of `preprocess_text`:
`(\+\d{1,3}[-.\s]?)?\(?\d{3}\)?[-.\s]?\d{3}[-.\s]?\d{4}`. -/
def phoneRE : RE :=
  let sep := RE.cls (fun c => c = '-' || c = '.' || isSpaceChar c)
  let digit := RE.cls isDigitChar
  RE.seq (RE.opt (RE.seq (RE.cls (fun c => c = '+'))
      (RE.seq (RE.repRange digit 1 3) (RE.opt sep))))
    (RE.seq (RE.opt (RE.cls (fun c => c = '(')))
      (RE.seq (RE.repExact digit 3)
        (RE.seq (RE.opt (RE.cls (fun c => c = ')')))
          (RE.seq (RE.opt sep)
            (RE.seq (RE.repExact digit 3)
              (RE.seq (RE.opt sep) (RE.repExact digit 4)))))))

/-- `TextPreprocessor.preprocess_text`: empty-input guard, lowercase, collapse
whitespace, delete URLs, emails and phone numbers, replace remaining
punctuation by spaces, and re-normalize whitespace via `' '.join(split())`
followed by `strip()`. -/
def preprocess_text (text : String) : String :=
  if text = "" then ""
  else
    let t1 := text.data.map pyLowerChar
    let t2 := collapseWsAux false t1
    let t3 := applyReSub urlRE t2
    let t4 := applyReSub emailRE t3
    let t5 := applyReSub phoneRE t4
    let t6 := punctToSpace t5
    ⟨pyStrip (joinPieces (pySplitWs t6))⟩

/-- The static technical-skill vocabulary of
`TextPreprocessor.extract_technical_skills`, flattened in the category order
the Python dict iterates (languages, frameworks, databases, cloud platforms,
tools, data science). -/
def technical_skills_vocab : List String :=
  ["python", "java", "javascript", "c++", "c#", "php", "ruby", "go", "rust",
   "typescript", "kotlin", "swift", "scala", "r", "matlab", "perl",
   "react", "angular", "vue", "django", "flask", "spring", "express",
   "laravel", "rails", "fastapi", "node.js", "asp.net",
   "mysql", "postgresql", "mongodb", "sqlite", "redis", "elasticsearch",
   "oracle", "sql server", "cassandra", "firebase",
   "aws", "azure", "gcp", "google cloud", "heroku", "digitalocean",
   "docker", "kubernetes", "terraform",
   "git", "jenkins", "jira", "confluence", "postman", "figma",
   "photoshop", "illustrator", "tableau", "power bi",
   "machine learning", "deep learning", "tensorflow", "pytorch",
   "scikit-learn", "pandas", "numpy", "matplotlib", "seaborn",
   "jupyter", "data analysis", "statistics"]

/-- The certification vocabulary of `TextPreprocessor.extract_certifications`. -/
def certifications_vocab : List String :=
  ["aws certified", "azure certified", "google cloud certified",
   "pmp", "cissp", "ceh", "ccna", "ccnp", "ccie",
   "oracle certified", "microsoft certified", "comptia",
   "scrum master", "product owner", "six sigma"]

/-- Contiguous containment of `needle` in `hay`. -/
def isSubList (needle : List Char) : List Char → Bool
  | [] => needle.isEmpty
  | c :: cs => needle.isPrefixOf (c :: cs) || isSubList needle cs

/-- Python's substring containment `needle in hay`. -/
def strContainsSub (hay needle : String) : Bool :=
  isSubList needle.data hay.data

/-- `TextPreprocessor.extract_technical_skills`: scan the vocabulary against
the lowercased text with substring containment and return the found skills
with duplicates removed — the Python returns `list(set(found_skills))`, whose
order is unspecified; the vocabulary has no duplicates, so `dedup` is the
identity here and every downstream use is order-insensitive. -/
def extract_technical_skills (text : String) : List String :=
  (technical_skills_vocab.filter (fun sk => strContainsSub (toLowerStr text) sk)).dedup

/-- `TextPreprocessor.extract_certifications`: substring scan of the
certification vocabulary against the lowercased text (the Python returns the
list as found, without a `set(...)` wrapper). -/
def extract_certifications (text : String) : List String :=
  certifications_vocab.filter (fun ct => strContainsSub (toLowerStr text) ct)

/-- `fuzzywuzzy.process.extractOne(query, choices, scorer=fuzz.token_sort_ratio)`:
`None` on an empty choice list, otherwise the first choice attaining the
maximal score — Python's `max` keeps the earlier element on ties.  The scorer
(an external library function, including its internal string processing) is a
parameter. -/
def extractOne (scorer : String → String → ℕ) (query : String) :
    List String → Option (String × ℕ)
  | [] => none
  | c :: cs =>
      match extractOne scorer query cs with
      | none => some (c, scorer query c)
      | some (b, s) =>
          if s > scorer query c then some (b, s) else some (c, scorer query c)

/-- `TextPreprocessor.fuzzy_match_skills`: for each job skill take the best
fuzzy candidate and keep it only when its 0–100 score reaches the threshold,
storing the score normalized to 0–1; the result models the Python dict as an
association list in job-skill order. -/
def fuzzy_match_skills (scorer : String → String → ℕ)
    (resume_skills : List String) (threshold : ℕ) :
    List String → List (String × String × ℚ)
  | [] => []
  | j :: rest =>
      match extractOne scorer j resume_skills with
      | some (b, s) =>
          if threshold ≤ s then
            (j, b, (s : ℚ) / 100) ::
              fuzzy_match_skills scorer resume_skills threshold rest
          else fuzzy_match_skills scorer resume_skills threshold rest
      | none => fuzzy_match_skills scorer resume_skills threshold rest

/-- The external capabilities the matching engine depends on.  Each field
models a third-party library call; an `Option` result with `none` stands for
the call raising an exception, which the Python code catches at the level
shown in each embedded function.
* `scorer` — `fuzzywuzzy.fuzz.token_sort_ratio` composed with fuzzywuzzy's
  internal string processing (a pure Python function; modelled total);
* `hasNlp` — whether the spaCy model loaded in `TextPreprocessor.__init__`;
* `nlpKw` — the union of the entity/noun-chunk/lemma keyword contributions
  `extract_keywords` collects from `self.nlp(clean_text)` (lowercased and
  length-filtered as in the source); `none` means the spaCy call raised;
* `sentMatches` — the sentence-alignment block of
  `calculate_semantic_match_score` (spaCy sentence split plus per-sentence
  similarities); `none` means it raised;
* `sim` — `EmbeddingService.calculate_semantic_similarity`, which catches its
  own exceptions and returns `0.0`, hence total here;
* `aiSuggest` — OpenAI improvement suggestions when the service is available
  (the inner `except` branch already folded to `[]` by the source);
* `insights` — the `_get_ai_insights` payload, opaque to every claim. -/
structure Env where
  scorer : String → String → ℕ
  hasNlp : Bool
  nlpKw : String → Option (Finset String)
  sentMatches : String → String → Option (List (String × String × ℚ))
  sim : String → String → ℚ
  aiSuggest : Option (List String)
  insights : String → String → List String

/-- The fallback branch of `TextPreprocessor.extract_keywords`: whitespace
tokens of the cleaned text of length at least `min_length` (always executed,
also when spaCy is available). -/
def fallback_keywords (clean : String) (min_length : ℕ) : Finset String :=
  (((pySplitWs clean.data).map (fun l => (⟨l⟩ : String))).filter
    (fun w => min_length ≤ w.length)).toFinset

/-- `TextPreprocessor.extract_keywords`: empty-text guard, then the spaCy
contributions (when the model is present; a raised spaCy call propagates, so
the result is `none`) united with the fallback whitespace tokens.  The Python
returns `list(keywords)` of a `set` in unspecified order; every use is
set-like, so the embedding returns the `Finset`. -/
def extract_keywords (env : Env) (text : String) (min_length : ℕ := 2) :
    Option (Finset String) :=
  if text = "" then some ∅
  else
    let clean := preprocess_text text
    match (if env.hasNlp then env.nlpKw clean else some ∅) with
    | none => none
    | some extra => some (extra ∪ fallback_keywords clean min_length)

/-- The result record of `MatchingEngine.calculate_hard_match_score`.  The
Python builds `skill_matches`, `cert_matches`, `missing_skills` and
`missing_certs` as `list(set ...)` in unspecified order; they are embedded as
the corresponding filtered lists (same elements, no duplicates). -/
structure HardResult where
  hard_match_score : ℚ
  skill_matches : List String
  keyword_matches : Finset String
  cert_matches : List String
  fuzzy_skill_matches : List (String × String × ℚ)
  missing_skills : List String
  missing_certs : List String
  skill_score : ℚ
  keyword_score : ℚ
  cert_score : ℚ

/-- The `except` branch of `calculate_hard_match_score`: the all-zero result. -/
def zeroHardResult : HardResult :=
  { hard_match_score := 0, skill_matches := [], keyword_matches := ∅,
    cert_matches := [], fuzzy_skill_matches := [], missing_skills := [],
    missing_certs := [], skill_score := 0, keyword_score := 0, cert_score := 0 }

/-- `MatchingEngine.calculate_hard_match_score`.  Skill, keyword and
certification features are extracted from both texts; exact intersections and
fuzzy skill matches (threshold 75) are computed; per-category coverage scores
combine as `0.6/0.3/0.1` and the total is capped at `1.0` by `min(1.0, ...)`.
Only the keyword extraction can raise (through spaCy), which the `try/except`
of the source turns into the all-zero result. -/
def calculate_hard_match_score (env : Env) (resume_text job_text : String) :
    HardResult :=
  match extract_keywords env resume_text, extract_keywords env job_text with
  | some resume_keywords, some job_keywords =>
      let resume_skills := extract_technical_skills resume_text
      let job_skills := extract_technical_skills job_text
      let resume_certs := extract_certifications resume_text
      let job_certs := extract_certifications job_text
      let skill_matches := resume_skills.filter (fun s => decide (s ∈ job_skills))
      let keyword_matches := resume_keywords ∩ job_keywords
      let cert_matches := resume_certs.filter (fun s => decide (s ∈ job_certs))
      let fuzzy := fuzzy_match_skills env.scorer resume_skills 75 job_skills
      let skill_score : ℚ :=
        if job_skills = [] then 0
        else
          max ((skill_matches.length : ℚ) / (job_skills.length : ℚ))
            ((fuzzy.map (fun e => e.2.2)).sum / (job_skills.length : ℚ) * 0.8)
      let keyword_score : ℚ :=
        if job_keywords = ∅ then 0
        else (keyword_matches.card : ℚ) / (job_keywords.card : ℚ)
      let cert_score : ℚ :=
        if job_certs = [] then 0
        else ((cert_matches.length : ℚ) / (job_certs.length : ℚ))
      let hard := skill_score * 0.6 + keyword_score * 0.3 + cert_score * 0.1
      { hard_match_score := min 1 hard
        skill_matches := skill_matches
        keyword_matches := keyword_matches
        cert_matches := cert_matches
        fuzzy_skill_matches := fuzzy
        missing_skills := job_skills.filter (fun s => decide (s ∉ resume_skills))
        missing_certs := job_certs.filter (fun s => decide (s ∉ resume_certs))
        skill_score := skill_score
        keyword_score := keyword_score
        cert_score := cert_score }
  | _, _ => zeroHardResult

/-- The result record of `MatchingEngine.calculate_semantic_match_score`
(`contextual_relevance`, which duplicates the score, is not repeated). -/
structure SemanticResult where
  semantic_match_score : ℚ
  sentence_matches : List (String × String × ℚ)

/-- `MatchingEngine.calculate_semantic_match_score`: the overall similarity
from the embedding service (which absorbs its own errors and never raises),
plus the sentence-alignment block when spaCy is present; an exception inside
that block reaches the `except` branch, which returns the all-zero result. -/
def calculate_semantic_match_score (env : Env) (resume_text job_text : String) :
    SemanticResult :=
  let overall := env.sim resume_text job_text
  if env.hasNlp then
    match env.sentMatches resume_text job_text with
    | some ms => { semantic_match_score := overall, sentence_matches := ms }
    | none => { semantic_match_score := 0, sentence_matches := [] }
  else { semantic_match_score := overall, sentence_matches := [] }

/-- Feedback record of `MatchingEngine._generate_feedback`. -/
structure Feedback where
  missing_skills : List String
  missing_certifications : List String
  improvement_suggestions : List String
  ai_improvement_suggestions : Option (List String)

/-- `MatchingEngine._generate_feedback`: the deterministic rule cascade over
the hard and semantic results, with the optional OpenAI suggestions kept in a
separate field. -/
def generate_feedback (env : Env) (hard : HardResult) (sem : SemanticResult) :
    Feedback :=
  let missing := hard.missing_skills
  let missingCerts := hard.missing_certs
  let s1 : List String :=
    if missing = [] then []
    else ["Consider adding these technical skills to your resume: " ++
      String.intercalate ", " (missing.take 5)]
  let s2 : List String :=
    if missingCerts = [] then []
    else ["Consider obtaining these certifications: " ++
      String.intercalate ", " missingCerts]
  let s3 : List String :=
    if sem.semantic_match_score < 0.5 then
      ["Consider rephrasing your experience descriptions to better align with the job requirements",
       "Add more specific examples and quantifiable achievements related to the job"]
    else []
  let s4 : List String :=
    if hard.hard_match_score < 0.4 then
      ["Focus on acquiring the key technical skills mentioned in the job description",
       "Include relevant projects that demonstrate your skills in the required technologies"]
    else []
  { missing_skills := missing
    missing_certifications := missingCerts
    improvement_suggestions := s1 ++ s2 ++ s3 ++ s4
    ai_improvement_suggestions := env.aiSuggest }

/-- Default `Settings.hard_match_weight` from `config.py`. -/
def hard_match_weight : ℚ := 0.4

/-- Default `Settings.semantic_match_weight` from `config.py`. -/
def semantic_match_weight : ℚ := 0.6

/-- Suitability classification of `calculate_combined_score`. -/
def suitability (combined_score : ℚ) : String :=
  if combined_score ≥ 0.7 then "High"
  else if combined_score ≥ 0.4 then "Medium"
  else "Low"

/-- Result record of `MatchingEngine.calculate_combined_score`. -/
structure CombinedResult where
  combined_score : ℚ
  score_percentage : ℚ
  suitability : String
  hard_match_results : HardResult
  semantic_match_results : SemanticResult
  feedback : Feedback
  ai_insights : List String

/-- `MatchingEngine.calculate_combined_score` with the weights passed
explicitly (the engine reads them from `Settings`, defaults `0.4`/`0.6`).
`score_percentage` is `round(combined*100, 2)`; Python rounds binary floats
half-to-even, modelled here as nearest-rational rounding (no claim depends on
it).  The sub-scorers catch their own exceptions, so the outer `try/except`
of the source is unreachable in this model. -/
def calculate_combined_score (env : Env) (hw sw : ℚ)
    (resume_text job_text : String) : CombinedResult :=
  let hard := calculate_hard_match_score env resume_text job_text
  let sem := calculate_semantic_match_score env resume_text job_text
  let combined := hard.hard_match_score * hw + sem.semantic_match_score * sw
  { combined_score := combined
    score_percentage := (round (combined * 10000) : ℚ) / 100
    suitability := suitability combined
    hard_match_results := hard
    semantic_match_results := sem
    feedback := generate_feedback env hard sem
    ai_insights := env.insights resume_text job_text }

/-- One element of the `resume_data` list of `batch_process_resumes`
(`resume.get('text','')`, `resume.get('id','')`, `resume.get('metadata',{})`). -/
structure Candidate where
  id : String
  text : String
  metadata : List (String × String)

/-- One element of the list `batch_process_resumes` returns: the combined
results augmented with the resume metadata. -/
structure BatchEntry where
  result : CombinedResult
  resume_id : String
  resume_metadata : List (String × String)

/-- Insert an entry into a list sorted by descending combined score, after
every entry with a greater-or-equal score: together with `sortDescByScore`
this is a stable descending sort, the behavior of Python's
`results.sort(key=..., reverse=True)` (timsort is stable and `reverse=True`
keeps the input order of equal keys). -/
def insertDescByScore (x : BatchEntry) : List BatchEntry → List BatchEntry
  | [] => [x]
  | y :: ys =>
      if y.result.combined_score ≤ x.result.combined_score then x :: y :: ys
      else y :: insertDescByScore x ys

/-- Stable sort by descending combined score. -/
def sortDescByScore : List BatchEntry → List BatchEntry
  | [] => []
  | x :: xs => insertDescByScore x (sortDescByScore xs)

/-- `MatchingEngine.batch_process_resumes`: score every candidate against the
job text, attach the metadata, and return the list sorted by descending
combined score.  The per-candidate `try/except/continue` of the loop guards
dictionary access on malformed entries; `calculate_combined_score` itself
catches all scoring errors and returns a defaulted result, so for well-formed
entries (the only ones expressible in this typed model) the loop body never
raises and no candidate is skipped. -/
def batch_process_resumes (env : Env) (hw sw : ℚ) (job_text : String)
    (resume_data : List Candidate) : List BatchEntry :=
  sortDescByScore (resume_data.map (fun r =>
    { result := calculate_combined_score env hw sw r.text job_text
      resume_id := r.id
      resume_metadata := r.metadata }))

/-- Lexicographic comparison of character lists (token ordering for the
token-sort scorer model). -/
def lexLeChars : List Char → List Char → Bool
  | [], _ => true
  | _ :: _, [] => false
  | a :: as, b :: bs => if a = b then lexLeChars as bs else decide (a < b)

/-- Insertion step of the token sort. -/
def insertTok (x : List Char) : List (List Char) → List (List Char)
  | [] => [x]
  | y :: ys => if lexLeChars x y then x :: y :: ys else y :: insertTok x ys

/-- Insertion sort of a token list. -/
def sortToks : List (List Char) → List (List Char)
  | [] => []
  | x :: xs => insertTok x (sortToks xs)

/-- Modelled from the spec: the external `fuzzywuzzy.fuzz.token_sort_ratio`
scorer (§4.2 — "tokenizes each string, sorts tokens, and compares the
sorted-token strings"; identical token-sorted strings are a perfect match,
score 100).  Non-identical pairs receive a character-multiset Dice score on
the token-sorted strings; no theorem depends on their exact value.  Used to
instantiate the abstract `Env.scorer` in concrete environments. -/
def tokenSortRatioModel (a b : String) : ℕ :=
  let proc := fun (s : String) =>
    joinPieces (sortToks (pySplitWs (punctToSpace (s.data.map pyLowerChar))))
  let ta := proc a
  let tb := proc b
  if ta = tb then 100
  else
    let common := (ta.dedup.map (fun c =>
      min (ta.count c) (tb.count c))).sum
    (200 * common) / (ta.length + tb.length + 1)

/-!
The embedding service (`embedding_service.py`).  The similarity computation
can produce IEEE `nan` (dividing the zero dot product by the zero norm
product), so this layer models Python/NumPy floats explicitly.  Only exact
operations occur on the paths the claims exercise (sums and products of
zeros, `0/0`, comparisons against `nan`), hence no rounding is modelled.
-/

/-- A Python/NumPy float: an exact rational, `nan`, or a signed infinity. -/
inductive PyFloat where
  | num (q : ℚ) : PyFloat
  | nan : PyFloat
  | inf : PyFloat
  | ninf : PyFloat
deriving DecidableEq

/-- IEEE `<` as Python evaluates it: every comparison with `nan` is false. -/
def pyLt : PyFloat → PyFloat → Bool
  | PyFloat.num a, PyFloat.num b => decide (a < b)
  | PyFloat.num _, PyFloat.inf => true
  | PyFloat.ninf, PyFloat.num _ => true
  | PyFloat.ninf, PyFloat.inf => true
  | _, _ => false

/-- CPython builtin `min(a, b)`: keep `a` unless `b < a`. -/
def pymin (a b : PyFloat) : PyFloat := if pyLt b a then b else a

/-- CPython builtin `max(a, b)`: keep `a` unless `b > a`. -/
def pymax (a b : PyFloat) : PyFloat := if pyLt a b then b else a

/-- IEEE addition on the model. -/
def pyAdd : PyFloat → PyFloat → PyFloat
  | PyFloat.num a, PyFloat.num b => PyFloat.num (a + b)
  | PyFloat.num _, PyFloat.inf => PyFloat.inf
  | PyFloat.inf, PyFloat.num _ => PyFloat.inf
  | PyFloat.num _, PyFloat.ninf => PyFloat.ninf
  | PyFloat.ninf, PyFloat.num _ => PyFloat.ninf
  | PyFloat.inf, PyFloat.inf => PyFloat.inf
  | PyFloat.ninf, PyFloat.ninf => PyFloat.ninf
  | _, _ => PyFloat.nan

/-- IEEE multiplication on the model. -/
def pyMul : PyFloat → PyFloat → PyFloat
  | PyFloat.num a, PyFloat.num b => PyFloat.num (a * b)
  | PyFloat.num a, PyFloat.inf =>
      if a = 0 then PyFloat.nan else if a > 0 then PyFloat.inf else PyFloat.ninf
  | PyFloat.inf, PyFloat.num a =>
      if a = 0 then PyFloat.nan else if a > 0 then PyFloat.inf else PyFloat.ninf
  | PyFloat.num a, PyFloat.ninf =>
      if a = 0 then PyFloat.nan else if a > 0 then PyFloat.ninf else PyFloat.inf
  | PyFloat.ninf, PyFloat.num a =>
      if a = 0 then PyFloat.nan else if a > 0 then PyFloat.ninf else PyFloat.inf
  | PyFloat.inf, PyFloat.inf => PyFloat.inf
  | PyFloat.ninf, PyFloat.ninf => PyFloat.inf
  | PyFloat.inf, PyFloat.ninf => PyFloat.ninf
  | PyFloat.ninf, PyFloat.inf => PyFloat.ninf
  | _, _ => PyFloat.nan

/-- IEEE division on the model; NumPy's `0.0/0.0` is `nan` (with a runtime
warning, not an exception), `x/0.0` for `x ≠ 0` is a signed infinity. -/
def pyDiv : PyFloat → PyFloat → PyFloat
  | PyFloat.num a, PyFloat.num b =>
      if b = 0 then
        if a = 0 then PyFloat.nan
        else if a > 0 then PyFloat.inf else PyFloat.ninf
      else PyFloat.num (a / b)
  | PyFloat.num _, PyFloat.inf => PyFloat.num 0
  | PyFloat.num _, PyFloat.ninf => PyFloat.num 0
  | PyFloat.inf, PyFloat.num a => if a < 0 then PyFloat.ninf else PyFloat.inf
  | PyFloat.ninf, PyFloat.num a => if a < 0 then PyFloat.inf else PyFloat.ninf
  | _, _ => PyFloat.nan

/-- `np.zeros(d)`. -/
def npZeros (d : ℕ) : List PyFloat := List.replicate d (PyFloat.num 0)

/-- `np.dot` on equal-length one-dimensional arrays. -/
def npDot (a b : List PyFloat) : PyFloat :=
  (List.zipWith pyMul a b).foldl pyAdd (PyFloat.num 0)

/-- The sentence-transformer model of `EmbeddingService`: its fixed embedding
dimension (`get_sentence_embedding_dimension`) and its `encode`, an external
call whose `none` result stands for a raised exception. -/
structure STModel where
  dim : ℕ
  encode : String → Option (List PyFloat)

/-- `EmbeddingService.generate_embedding`: preprocess the text; if the cleaned
text is empty return `np.zeros(dim)` without invoking the model; otherwise
call the model, and on an exception (the `except` branch) return the zero
vector as well. -/
def generate_embedding (m : STModel) (text : String) : List PyFloat :=
  let clean := preprocess_text text
  if clean = "" then npZeros m.dim
  else
    match m.encode clean with
    | some v => v
    | none => npZeros m.dim

/-- `EmbeddingService.calculate_semantic_similarity`: cosine similarity of the
two generated embeddings rescaled by `(sim+1)/2` and clamped with
`max(0, min(1, ...))` (CPython `min`/`max` keep the first argument when the
comparison with `nan` is false).  `np.linalg.norm` involves an irrational
square root and is passed as a function parameter; the claims only constrain
its (exact) value on the zero vector. -/
def calculate_semantic_similarity (m : STModel)
    (norm : List PyFloat → PyFloat) (text1 text2 : String) : PyFloat :=
  let e1 := generate_embedding m text1
  let e2 := generate_embedding m text2
  let s := pyDiv (npDot e1 e2) (pyMul (norm e1) (norm e2))
  pymax (PyFloat.num 0) (pymin (PyFloat.num 1) (pyDiv (pyAdd s (PyFloat.num 1)) (PyFloat.num 2)))

/-!  Helper lemmas about the text pipeline. -/

theorem mem_upperChars_toNat {c : Char} (h : c ∈ upperChars) :
    65 ≤ c.toNat ∧ c.toNat ≤ 90 := by
  simp only [upperChars, List.mem_cons, List.not_mem_nil, or_false] at h
  rcases h with rfl|rfl|rfl|rfl|rfl|rfl|rfl|rfl|rfl|rfl|rfl|rfl|rfl|rfl|rfl|rfl|rfl|rfl|rfl|rfl|rfl|rfl|rfl|rfl|rfl|rfl <;> decide

theorem pyLowerChar_not_mem_upper (c : Char) : pyLowerChar c ∉ upperChars := by
  intro hmem
  have hn := mem_upperChars_toNat hmem
  unfold pyLowerChar Char.toLower at hn
  by_cases h : c.toNat ≥ 65 ∧ c.toNat ≤ 90
  · rw [if_pos h] at hn
    have hval : (c.toNat + 32).isValidChar := by left; omega
    rw [Char.ofNat, dif_pos hval] at hn
    simp only [Char.ofNatAux, Char.toNat, UInt32.toNat, BitVec.ofNatLt,
      BitVec.toNat, Fin.val] at hn h
    omega
  · rw [if_neg h] at hn
    exact h ⟨hn.1, hn.2⟩

theorem tryMatchAt_suffix {re : RE} {prev : Option Char} {s : List Char}
    {p2 : Option Char} {s2 : List Char}
    (h : tryMatchAt re prev s = some (p2, s2)) : s2 <:+ s := by
  unfold tryMatchAt at h
  split at h
  next q2 t2 heq =>
    split at h
    next hs =>
      obtain ⟨rfl, rfl⟩ : q2 = p2 ∧ t2 = s2 := by
        exact ⟨congrArg Prod.fst (Option.some.inj h),
          congrArg Prod.snd (Option.some.inj h)⟩
      exact List.isSuffixOf_iff_suffix.mp hs
    next => exact absurd h (by simp)
  next => exact absurd h (by simp)

theorem reSubDel_succ (f : ℕ) (re : RE) (prev : Option Char) (s : List Char) :
    reSubDel (f + 1) re prev s =
      match tryMatchAt re prev s with
      | some (p2, s2) =>
          if s2.length < s.length then reSubDel f re p2 s2
          else
            match s with
            | [] => []
            | c :: cs => c :: reSubDel f re (some c) cs
      | none =>
          match s with
          | [] => []
          | c :: cs => c :: reSubDel f re (some c) cs := rfl

theorem reSubDel_sublist : ∀ (fuel : ℕ) (re : RE) (prev : Option Char)
    (s : List Char), List.Sublist (reSubDel fuel re prev s) s := by
  intro fuel
  induction fuel with
  | zero => intro re prev s; exact List.Sublist.refl s
  | succ f ih =>
      intro re prev s
      rw [reSubDel_succ]
      cases h : tryMatchAt re prev s with
      | some r =>
          obtain ⟨p2, s2⟩ := r
          simp only
          by_cases hl : s2.length < s.length
          · rw [if_pos hl]
            exact (ih re p2 s2).trans (tryMatchAt_suffix h).sublist
          · rw [if_neg hl]
            cases s with
            | nil => exact List.Sublist.refl []
            | cons c cs => exact (ih re (some c) cs).cons₂ c
      | none =>
          simp only
          cases s with
          | nil => exact List.Sublist.refl []
          | cons c cs => exact (ih re (some c) cs).cons₂ c

theorem applyReSub_sublist (re : RE) (s : List Char) :
    List.Sublist (applyReSub re s) s :=
  reSubDel_sublist (s.length + 1) re none s

theorem mem_collapseWsAux : ∀ (s : List Char) (b : Bool) (c : Char),
    c ∈ collapseWsAux b s → c = ' ' ∨ c ∈ s := by
  intro s
  induction s with
  | nil => intro b c h; exact absurd h (by simp [collapseWsAux])
  | cons a as ih =>
      intro b c h
      rw [collapseWsAux] at h
      by_cases ha : isSpaceChar a
      · rw [if_pos ha] at h
        rcases List.mem_append.mp h with h1 | h2
        · left
          cases b with
          | true => exact absurd h1 (by simp)
          | false => simpa using h1
        · rcases ih true c h2 with h3 | h3
          · exact Or.inl h3
          · exact Or.inr (List.mem_cons_of_mem a h3)
      · rw [if_neg ha] at h
        rcases List.mem_cons.mp h with h1 | h2
        · exact Or.inr (h1 ▸ List.mem_cons_self a as)
        · rcases ih false c h2 with h3 | h3
          · exact Or.inl h3
          · exact Or.inr (List.mem_cons_of_mem a h3)

theorem mem_punctToSpace {s : List Char} {c : Char} (h : c ∈ punctToSpace s) :
    c = ' ' ∨ c ∈ s := by
  obtain ⟨a, ha, hc⟩ := List.mem_map.mp h
  by_cases hw : (!isWordChar a && !isSpaceChar a) = true
  · rw [if_pos hw] at hc
    exact Or.inl hc.symm
  · rw [if_neg hw] at hc
    exact Or.inr (hc ▸ ha)

theorem punctToSpace_word_or_space {s : List Char} {c : Char}
    (h : c ∈ punctToSpace s) : isWordChar c = true ∨ isSpaceChar c = true := by
  obtain ⟨a, ha, hc⟩ := List.mem_map.mp h
  by_cases hw : (!isWordChar a && !isSpaceChar a) = true
  · rw [if_pos hw] at hc
    right
    rw [← hc]
    decide
  · rw [if_neg hw] at hc
    rw [← hc]
    rcases Bool.eq_false_or_eq_true (isWordChar a) with h1 | h1
    · exact Or.inl h1
    · rcases Bool.eq_false_or_eq_true (isSpaceChar a) with h2 | h2
      · exact Or.inr h2
      · exact absurd (by rw [h1, h2]; rfl) hw

theorem pySplitWsAux_pieces (P : Char → Prop) :
    ∀ (s cur : List Char), (∀ c ∈ s, P c) →
      (∀ c ∈ cur, P c ∧ isSpaceChar c = false) →
      ∀ p ∈ pySplitWsAux cur s, p ≠ [] ∧ ∀ c ∈ p, P c ∧ isSpaceChar c = false := by
  intro s
  induction s with
  | nil =>
      intro cur _ hcur p hp
      rw [pySplitWsAux] at hp
      by_cases hc : cur.isEmpty
      · rw [if_pos hc] at hp; exact absurd hp (by simp)
      · rw [if_neg hc] at hp
        obtain rfl : p = cur.reverse := by simpa using hp
        refine ⟨by simpa using (by simpa [List.isEmpty_iff] using hc), ?_⟩
        intro c hcmem
        exact hcur c (List.mem_reverse.mp hcmem)
  | cons a as ih =>
      intro cur hs hcur p hp
      rw [pySplitWsAux] at hp
      by_cases ha : isSpaceChar a
      · rw [if_pos ha] at hp
        by_cases hc : cur.isEmpty
        · rw [if_pos hc] at hp
          exact ih [] (fun c h => hs c (List.mem_cons_of_mem a h)) (by simp) p hp
        · rw [if_neg hc] at hp
          rcases List.mem_cons.mp hp with h1 | h2
          · subst h1
            refine ⟨by simpa using (by simpa [List.isEmpty_iff] using hc), ?_⟩
            intro c hcmem
            exact hcur c (List.mem_reverse.mp hcmem)
          · exact ih [] (fun c h => hs c (List.mem_cons_of_mem a h)) (by simp) p h2
      · rw [if_neg ha] at hp
        refine ih (a :: cur) (fun c h => hs c (List.mem_cons_of_mem a h)) ?_ p hp
        intro c hcmem
        rcases List.mem_cons.mp hcmem with h1 | h2
        · exact h1 ▸ ⟨hs a (List.mem_cons_self a as), Bool.eq_false_iff.mpr ha⟩
        · exact hcur c h2

theorem joinPieces_ne_nil {q : List Char} {rest : List (List Char)}
    (hq : q ≠ []) : joinPieces (q :: rest) ≠ [] := by
  cases rest with
  | nil => simpa [joinPieces] using hq
  | cons r rs =>
      rw [joinPieces]
      intro h
      exact hq (List.append_eq_nil.mp h).1

theorem mem_joinPieces : ∀ (ps : List (List Char)) (c : Char),
    c ∈ joinPieces ps → c = ' ' ∨ ∃ p ∈ ps, c ∈ p := by
  intro ps
  induction ps with
  | nil => intro c h; exact absurd h (by simp [joinPieces])
  | cons p qs ih =>
      intro c h
      cases qs with
      | nil =>
          right
          exact ⟨p, List.mem_cons_self p [], by simpa [joinPieces] using h⟩
      | cons q rest =>
          rw [joinPieces] at h
          rcases List.mem_append.mp h with h1 | h2
          · exact Or.inr ⟨p, List.mem_cons_self p _, h1⟩
          · rcases List.mem_cons.mp h2 with h3 | h4
            · exact Or.inl h3
            · rcases ih c h4 with h5 | ⟨r, hr, hcr⟩
              · exact Or.inl h5
              · exact Or.inr ⟨r, List.mem_cons_of_mem p hr, hcr⟩

theorem chain_of_no_space : ∀ (l : List Char),
    (∀ c ∈ l, isSpaceChar c = false) →
    l.Chain' (fun a b => ¬(a = ' ' ∧ b = ' ')) := by
  intro l
  induction l with
  | nil => intro _; exact List.chain'_nil
  | cons a as ih =>
      intro h
      cases as with
      | nil => exact List.chain'_singleton a
      | cons b bs =>
          refine List.Chain'.cons ?_ (ih (fun c hc => h c (List.mem_cons_of_mem a hc)))
          intro ⟨ha, _⟩
          have := h a (List.mem_cons_self a _)
          rw [ha] at this
          exact absurd this (by decide)

theorem joinPieces_props : ∀ (ps : List (List Char)),
    (∀ p ∈ ps, p ≠ [] ∧ ∀ c ∈ p, isSpaceChar c = false) →
    (∀ c, (joinPieces ps).head? = some c → isSpaceChar c = false) ∧
    (∀ c, (joinPieces ps).getLast? = some c → isSpaceChar c = false) ∧
    (joinPieces ps).Chain' (fun a b => ¬(a = ' ' ∧ b = ' ')) := by
  intro ps
  induction ps with
  | nil => intro _; refine ⟨?_, ?_, ?_⟩ <;> simp [joinPieces]
  | cons p qs ih =>
      intro h
      have hp := h p (List.mem_cons_self p qs)
      cases qs with
      | nil =>
          refine ⟨?_, ?_, ?_⟩
          · intro c hc
            exact hp.2 c (by
              simpa [joinPieces] using List.mem_of_mem_head? (by simpa [joinPieces] using hc))
          · intro c hc
            exact hp.2 c (by
              simpa [joinPieces] using List.mem_of_mem_getLast? (by simpa [joinPieces] using hc))
          · exact chain_of_no_space p (by simpa [joinPieces] using hp.2)
      | cons q rest =>
          have hq := h q (List.mem_cons_of_mem p (List.mem_cons_self q rest))
          have ihq := ih (fun r hr => h r (List.mem_cons_of_mem p hr))
          have hJnil : joinPieces (q :: rest) ≠ [] := joinPieces_ne_nil hq.1
          refine ⟨?_, ?_, ?_⟩
          · intro c hc
            rw [joinPieces, List.head?_append] at hc
            cases hP : p.head? with
            | none => exact absurd (by simpa using hP) hp.1
            | some b =>
                rw [hP] at hc
                have hbc : b = c := Option.some.inj hc
                exact hp.2 c (hbc ▸ List.mem_of_mem_head? (Option.mem_def.mpr hP))
          · intro c hc
            rw [joinPieces, List.getLast?_append] at hc
            cases hJ : joinPieces (q :: rest) with
            | nil => exact absurd hJ hJnil
            | cons b bs =>
                rw [hJ, List.getLast?_cons_cons] at hc
                cases hbs : (b :: bs).getLast? with
                | none => simp at hbs
                | some x =>
                    rw [hbs] at hc
                    have hcx : x = c := Option.some.inj hc
                    refine ihq.2.1 c ?_
                    rw [hJ, hbs, hcx]
          · rw [joinPieces]
            rw [List.chain'_append]
            refine ⟨chain_of_no_space p hp.2, ?_, ?_⟩
            · rw [List.chain'_cons']
              refine ⟨?_, ihq.2.2⟩
              intro y hy ⟨_, hy2⟩
              have := ihq.1 y hy
              rw [hy2] at this
              exact absurd this (by decide)
            · intro x hx y hy
              intro ⟨hx1, _⟩
              have hxl := List.mem_of_mem_getLast? hx
              have := hp.2 x hxl
              rw [hx1] at this
              exact absurd this (by decide)

theorem dropWhile_eq_self_of_head {l : List Char}
    (h : ∀ c, l.head? = some c → isSpaceChar c = false) :
    l.dropWhile isSpaceChar = l := by
  cases l with
  | nil => rfl
  | cons a as =>
      rw [List.dropWhile_cons, if_neg]
      rw [h a rfl]
      simp

theorem pyStrip_eq_self {l : List Char}
    (h1 : ∀ c, l.head? = some c → isSpaceChar c = false)
    (h2 : ∀ c, l.getLast? = some c → isSpaceChar c = false) :
    pyStrip l = l := by
  unfold pyStrip
  rw [dropWhile_eq_self_of_head h1]
  rw [dropWhile_eq_self_of_head (by
    intro c hc
    rw [List.head?_reverse] at hc
    exact h2 c hc)]
  exact List.reverse_reverse l

/-- The structural properties of `preprocess_text` output: every character is
a word character or a single space, no two spaces are adjacent, no ASCII
uppercase letter survives, and the output is stripped. -/
theorem preprocess_text_props (t : String) :
    (∀ c ∈ (preprocess_text t).data, isWordChar c = true ∨ c = ' ') ∧
    (preprocess_text t).data.Chain' (fun a b => ¬(a = ' ' ∧ b = ' ')) ∧
    (∀ c ∈ (preprocess_text t).data, c ∉ upperChars) ∧
    (∀ c, (preprocess_text t).data.head? = some c → c ≠ ' ') ∧
    (∀ c, (preprocess_text t).data.getLast? = some c → c ≠ ' ') := by
  by_cases ht : t = ""
  · rw [ht]
    refine ⟨?_, ?_, ?_, ?_, ?_⟩ <;> simp [preprocess_text]
  · have hout : preprocess_text t =
        ⟨pyStrip (joinPieces (pySplitWs (punctToSpace (applyReSub phoneRE
          (applyReSub emailRE (applyReSub urlRE
            (collapseWsAux false (t.data.map pyLowerChar))))))))⟩ := by
      rw [preprocess_text, if_neg ht]
    set t1 := t.data.map pyLowerChar with ht1
    set t2 := collapseWsAux false t1 with ht2
    set t5 := applyReSub phoneRE (applyReSub emailRE (applyReSub urlRE t2)) with ht5
    set t6 := punctToSpace t5 with ht6
    have hws : ∀ c ∈ t6, isWordChar c = true ∨ isSpaceChar c = true :=
      fun c hc => punctToSpace_word_or_space hc
    have hpiecesW := pySplitWsAux_pieces
      (fun c => isWordChar c = true ∨ isSpaceChar c = true) t6 [] hws (by simp)
    have hpiecesM := pySplitWsAux_pieces (fun c => c ∈ t6) t6 []
      (fun c hc => hc) (by simp)
    have hpiecesNS : ∀ p ∈ pySplitWs t6, p ≠ [] ∧
        ∀ c ∈ p, isSpaceChar c = false :=
      fun p hp => ⟨(hpiecesW p hp).1, fun c hc => ((hpiecesW p hp).2 c hc).2⟩
    have hjoin := joinPieces_props (pySplitWs t6) hpiecesNS
    have hstrip : pyStrip (joinPieces (pySplitWs t6)) =
        joinPieces (pySplitWs t6) :=
      pyStrip_eq_self hjoin.1 hjoin.2.1
    have hdata : (preprocess_text t).data = joinPieces (pySplitWs t6) := by
      rw [hout]
      exact hstrip
    have hmemt1 : ∀ c ∈ joinPieces (pySplitWs t6), c = ' ' ∨ c ∈ t1 := by
      intro c hc
      rcases mem_joinPieces _ c hc with h1 | ⟨p, hp, hcp⟩
      · exact Or.inl h1
      · have h6 : c ∈ t6 := ((hpiecesM p hp).2 c hcp).1
        rcases mem_punctToSpace h6 with h1 | h5
        · exact Or.inl h1
        · have h2 : c ∈ t2 := by
            have s1 := (applyReSub_sublist urlRE t2).subset
            have s2 := (applyReSub_sublist emailRE (applyReSub urlRE t2)).subset
            have s3 := (applyReSub_sublist phoneRE
              (applyReSub emailRE (applyReSub urlRE t2))).subset
            exact s1 (s2 (s3 h5))
          rcases mem_collapseWsAux t1 false c h2 with h1 | h1
          · exact Or.inl h1
          · exact Or.inr h1
    refine ⟨?_, ?_, ?_, ?_, ?_⟩
    · intro c hc
      rw [hdata] at hc
      rcases mem_joinPieces _ c hc with h1 | ⟨p, hp, hcp⟩
      · exact Or.inr h1
      · have := (hpiecesW p hp).2 c hcp
        rcases this.1 with h2 | h2
        · exact Or.inl h2
        · exact absurd h2 (by rw [this.2]; simp)
    · rw [hdata]
      exact hjoin.2.2
    · intro c hc
      rw [hdata] at hc
      rcases hmemt1 c hc with h1 | h1
      · rw [h1]; decide
      · obtain ⟨a, _, rfl⟩ := List.mem_map.mp h1
        exact pyLowerChar_not_mem_upper a
    · intro c hc
      rw [hdata] at hc
      intro hceq
      have := hjoin.1 c hc
      rw [hceq] at this
      exact absurd this (by decide)
    · intro c hc
      rw [hdata] at hc
      intro hceq
      have := hjoin.2.1 c hc
      rw [hceq] at this
      exact absurd this (by decide)

/-!  Helper lemmas about the fuzzy skill matcher. -/

theorem extractOne_eq_none {scorer : String → String → ℕ} {q : String} :
    ∀ {cs : List String}, extractOne scorer q cs = none → cs = [] := by
  intro cs
  cases cs with
  | nil => intro _; rfl
  | cons c rest =>
      intro h
      rw [extractOne] at h
      split at h
      next => exact absurd h (by simp)
      next b s heq =>
        split at h <;> exact absurd h (by simp)

theorem extractOne_some {scorer : String → String → ℕ} {q : String} :
    ∀ {cs : List String} {b : String} {s : ℕ},
      extractOne scorer q cs = some (b, s) →
      b ∈ cs ∧ s = scorer q b ∧ ∀ c ∈ cs, scorer q c ≤ s := by
  intro cs
  induction cs with
  | nil => intro b s h; exact absurd h (by simp [extractOne])
  | cons c rest ih =>
      intro b s h
      rw [extractOne] at h
      split at h
      next hr =>
        obtain ⟨rfl, rfl⟩ : c = b ∧ scorer q c = s :=
          ⟨congrArg Prod.fst (Option.some.inj h),
           congrArg Prod.snd (Option.some.inj h)⟩
        have hrest : rest = [] := extractOne_eq_none hr
        subst hrest
        exact ⟨List.mem_cons_self _ _, rfl, by
          intro x hx
          rcases List.mem_cons.mp hx with rfl | hx2
          · exact Nat.le_refl _
          · exact absurd hx2 (by simp)⟩
      next b0 s0 hr =>
        have ihr := ih hr
        split at h
        next hgt =>
          obtain ⟨rfl, rfl⟩ : b0 = b ∧ s0 = s :=
            ⟨congrArg Prod.fst (Option.some.inj h),
             congrArg Prod.snd (Option.some.inj h)⟩
          refine ⟨List.mem_cons_of_mem c ihr.1, ihr.2.1, ?_⟩
          intro x hx
          rcases List.mem_cons.mp hx with rfl | hx2
          · exact Nat.le_of_lt hgt
          · exact ihr.2.2 x hx2
        next hgt =>
          obtain ⟨rfl, rfl⟩ : c = b ∧ scorer q c = s :=
            ⟨congrArg Prod.fst (Option.some.inj h),
             congrArg Prod.snd (Option.some.inj h)⟩
          refine ⟨List.mem_cons_self _ _, rfl, ?_⟩
          intro x hx
          rcases List.mem_cons.mp hx with rfl | hx2
          · exact Nat.le_refl _
          · exact Nat.le_trans (ihr.2.2 x hx2) (Nat.le_of_not_lt hgt)

theorem fms_lookup_some {scorer : String → String → ℕ} {rs : List String}
    {t : ℕ} : ∀ {js : List String} {j m : String} {q : ℚ},
    (fuzzy_match_skills scorer rs t js).lookup j = some (m, q) →
    j ∈ js ∧ m ∈ rs ∧ t ≤ scorer j m ∧ q = (scorer j m : ℚ) / 100 ∧
      ∀ c ∈ rs, scorer j c ≤ scorer j m := by
  intro js
  induction js with
  | nil => intro j m q h; exact absurd h (by simp [fuzzy_match_skills])
  | cons j0 rest ih =>
      intro j m q h
      rw [fuzzy_match_skills] at h
      split at h
      next b s he =>
        split at h
        next hts =>
          rw [List.lookup_cons] at h
          split at h
          next hj =>
            obtain rfl : j = j0 := by simpa using hj
            obtain ⟨rfl, rfl⟩ : b = m ∧ (s : ℚ) / 100 = q :=
              ⟨congrArg Prod.fst (Option.some.inj h),
               congrArg Prod.snd (Option.some.inj h)⟩
            obtain ⟨hbm, hs, hbest⟩ := extractOne_some he
            subst hs
            exact ⟨List.mem_cons_self _ _, hbm, hts, rfl, hbest⟩
          next hj =>
            have := ih h
            exact ⟨List.mem_cons_of_mem j0 this.1, this.2⟩
        next =>
          have := ih h
          exact ⟨List.mem_cons_of_mem j0 this.1, this.2⟩
      next =>
        have := ih h
        exact ⟨List.mem_cons_of_mem j0 this.1, this.2⟩

theorem fms_lookup_isSome {scorer : String → String → ℕ} {rs : List String}
    {t : ℕ} : ∀ {js : List String} {j b : String} {s : ℕ},
    j ∈ js → extractOne scorer j rs = some (b, s) → t ≤ s →
    ((fuzzy_match_skills scorer rs t js).lookup j).isSome := by
  intro js
  induction js with
  | nil => intro j b s h; exact absurd h (by simp)
  | cons j0 rest ih =>
      intro j b s hmem he hts
      rw [fuzzy_match_skills]
      split
      next b0 s0 he0 =>
        by_cases hj : j = j0
        · subst hj
          rw [he0] at he
          obtain ⟨rfl, rfl⟩ : b0 = b ∧ s0 = s :=
            ⟨congrArg Prod.fst (Option.some.inj he),
             congrArg Prod.snd (Option.some.inj he)⟩
          rw [if_pos hts]
          simp [List.lookup_cons]
        · have hmem2 : j ∈ rest := by
            rcases List.mem_cons.mp hmem with h1 | h1
            · exact absurd h1 hj
            · exact h1
          have hne : (j == j0) = false := by simp [hj]
          split
          next => simpa [List.lookup_cons, hne] using ih hmem2 he hts
          next => exact ih hmem2 he hts
      next he0 =>
        have hrs : rs = [] := extractOne_eq_none he0
        subst hrs
        exact absurd he (by simp [extractOne])

theorem fms_lookup_none {scorer : String → String → ℕ} {rs : List String}
    {t : ℕ} : ∀ {js : List String} {j : String},
    (∀ c ∈ rs, scorer j c < t) →
    (fuzzy_match_skills scorer rs t js).lookup j = none := by
  intro js
  induction js with
  | nil => intro j _; simp [fuzzy_match_skills]
  | cons j0 rest ih =>
      intro j hlow
      rw [fuzzy_match_skills]
      split
      next b s he =>
        split
        next hts =>
          by_cases hj : j = j0
          · subst hj
            obtain ⟨hbm, hs, _⟩ := extractOne_some he
            exact absurd hts (by rw [hs]; exact Nat.not_le_of_lt (hlow b hbm))
          · have hne : (j == j0) = false := by simp [hj]
            simpa [List.lookup_cons, hne] using ih hlow
        next => exact ih hlow
      next => exact ih hlow

theorem fms_keys_sublist {scorer : String → String → ℕ} {rs : List String}
    {t : ℕ} : ∀ (js : List String),
    List.Sublist ((fuzzy_match_skills scorer rs t js).map (fun e => e.1)) js := by
  intro js
  induction js with
  | nil => simp [fuzzy_match_skills]
  | cons j0 rest ih =>
      rw [fuzzy_match_skills]
      split
      next b s he =>
        split
        next => exact ih.cons₂ j0
        next => exact ih.cons j0
      next => exact ih.cons j0

theorem fms_sims_nonneg {scorer : String → String → ℕ} {rs : List String}
    {t : ℕ} : ∀ (js : List String) (e : String × String × ℚ),
    e ∈ fuzzy_match_skills scorer rs t js → 0 ≤ e.2.2 := by
  intro js
  induction js with
  | nil => intro e h; exact absurd h (by simp [fuzzy_match_skills])
  | cons j0 rest ih =>
      intro e h
      rw [fuzzy_match_skills] at h
      split at h
      next b s he =>
        split at h
        next =>
          rcases List.mem_cons.mp h with h1 | h1
          · rw [h1]
            exact div_nonneg (Nat.cast_nonneg s) (by norm_num)
          · exact ih e h1
        next => exact ih e h
      next => exact ih e h

theorem fms_sum_nonneg {scorer : String → String → ℕ} {rs : List String}
    {t : ℕ} (js : List String) :
    0 ≤ ((fuzzy_match_skills scorer rs t js).map (fun e => e.2.2)).sum := by
  refine List.sum_nonneg ?_
  intro x hx
  obtain ⟨e, he, rfl⟩ := List.mem_map.mp hx
  exact fms_sims_nonneg js e he

/-!  Helper lemmas about the stable descending sort of batch ranking. -/

theorem insertDescByScore_perm (x : BatchEntry) (l : List BatchEntry) :
    List.Perm (insertDescByScore x l) (x :: l) := by
  induction l with
  | nil => exact List.Perm.refl _
  | cons y ys ih =>
      rw [insertDescByScore]
      by_cases h : y.result.combined_score ≤ x.result.combined_score
      · rw [if_pos h]
      · rw [if_neg h]
        exact (ih.cons y).trans (List.Perm.swap x y ys)

theorem sortDescByScore_perm (l : List BatchEntry) :
    List.Perm (sortDescByScore l) l := by
  induction l with
  | nil => exact List.Perm.refl _
  | cons x xs ih =>
      rw [sortDescByScore]
      exact (insertDescByScore_perm x (sortDescByScore xs)).trans (ih.cons x)

theorem insertDescByScore_sorted (x : BatchEntry) (l : List BatchEntry)
    (h : l.Pairwise (fun a b => b.result.combined_score ≤ a.result.combined_score)) :
    (insertDescByScore x l).Pairwise
      (fun a b => b.result.combined_score ≤ a.result.combined_score) := by
  induction l with
  | nil => simp [insertDescByScore]
  | cons y ys ih =>
      rw [insertDescByScore]
      by_cases hc : y.result.combined_score ≤ x.result.combined_score
      · rw [if_pos hc]
        refine List.Pairwise.cons ?_ h
        intro z hz
        rcases List.mem_cons.mp hz with rfl | hz2
        · exact hc
        · exact le_trans (List.rel_of_pairwise_cons h hz2) hc
      · rw [if_neg hc]
        refine List.Pairwise.cons ?_ (ih (List.Pairwise.of_cons h))
        intro z hz
        rcases List.mem_cons.mp
            ((insertDescByScore_perm x ys).mem_iff.mp hz) with rfl | hz2
        · exact le_of_lt (lt_of_not_le hc)
        · exact List.rel_of_pairwise_cons h hz2

theorem sortDescByScore_sorted (l : List BatchEntry) :
    (sortDescByScore l).Pairwise
      (fun a b => b.result.combined_score ≤ a.result.combined_score) := by
  induction l with
  | nil => simp [sortDescByScore]
  | cons x xs ih =>
      rw [sortDescByScore]
      exact insertDescByScore_sorted x (sortDescByScore xs) ih

theorem insertDescByScore_filter (x : BatchEntry) (l : List BatchEntry) (q : ℚ) :
    (insertDescByScore x l).filter (fun e => decide (e.result.combined_score = q)) =
      (x :: l).filter (fun e => decide (e.result.combined_score = q)) := by
  induction l with
  | nil => rfl
  | cons y ys ih =>
      rw [insertDescByScore]
      by_cases hc : y.result.combined_score ≤ x.result.combined_score
      · rw [if_pos hc]
      · rw [if_neg hc]
        by_cases hy : y.result.combined_score = q
        · by_cases hx : x.result.combined_score = q
          · exact absurd (le_of_eq (hy.trans hx.symm)) hc
          · simp [List.filter_cons, hx, hy, ih]
        · by_cases hx : x.result.combined_score = q
          · simp [List.filter_cons, hx, hy, ih]
          · simp [List.filter_cons, hx, hy, ih]

theorem sortDescByScore_filter (l : List BatchEntry) (q : ℚ) :
    (sortDescByScore l).filter (fun e => decide (e.result.combined_score = q)) =
      l.filter (fun e => decide (e.result.combined_score = q)) := by
  induction l with
  | nil => rfl
  | cons x xs ih =>
      rw [sortDescByScore, insertDescByScore_filter, List.filter_cons,
        List.filter_cons, ih]

/-!  List/Finset cardinality bridges. -/

theorem filter_mem_toFinset (rs js : List String) :
    (rs.filter (fun s => decide (s ∈ js))).toFinset = rs.toFinset ∩ js.toFinset := by
  ext a
  simp [List.mem_filter, Finset.mem_inter, List.mem_toFinset]

theorem filter_mem_length (rs js : List String) (h : rs.Nodup) :
    (rs.filter (fun s => decide (s ∈ js))).length =
      (rs.toFinset ∩ js.toFinset).card := by
  rw [← filter_mem_toFinset, List.toFinset_card_of_nodup (h.filter _)]

theorem filter_not_mem_toFinset (js rs : List String) :
    (js.filter (fun s => decide (s ∉ rs))).toFinset =
      js.toFinset \ rs.toFinset := by
  ext a
  simp [List.mem_filter, Finset.mem_sdiff, List.mem_toFinset]

theorem extract_technical_skills_nodup (t : String) :
    (extract_technical_skills t).Nodup := by
  unfold extract_technical_skills
  exact List.nodup_dedup _

theorem certifications_vocab_nodup : certifications_vocab.Nodup := by decide

theorem extract_certifications_nodup (t : String) :
    (extract_certifications t).Nodup := by
  unfold extract_certifications
  exact certifications_vocab_nodup.filter _

/-!  IEEE model facts. -/

theorem zipWith_pyMul_zeros : ∀ d : ℕ,
    List.zipWith pyMul (npZeros d) (npZeros d) = npZeros d := by
  intro d
  induction d with
  | zero => rfl
  | succ n ih =>
      show pyMul (PyFloat.num 0) (PyFloat.num 0) ::
        List.zipWith pyMul (npZeros n) (npZeros n) = npZeros (n + 1)
      rw [ih]
      show PyFloat.num (0 * 0) :: npZeros n = npZeros (n + 1)
      norm_num
      rfl

theorem foldl_pyAdd_zeros : ∀ d : ℕ,
    (npZeros d).foldl pyAdd (PyFloat.num 0) = PyFloat.num 0 := by
  intro d
  induction d with
  | zero => rfl
  | succ n ih =>
      show (npZeros n).foldl pyAdd (pyAdd (PyFloat.num 0) (PyFloat.num 0)) =
        PyFloat.num 0
      have : pyAdd (PyFloat.num 0) (PyFloat.num 0) = PyFloat.num 0 := by
        show PyFloat.num (0 + 0) = PyFloat.num 0
        norm_num
      rw [this, ih]

theorem npDot_zeros (d : ℕ) :
    npDot (npZeros d) (npZeros d) = PyFloat.num 0 := by
  unfold npDot
  rw [zipWith_pyMul_zeros, foldl_pyAdd_zeros]

/-!  Evaluation lemmas for the matching engine. -/

theorem hard_match_eq (env : Env) (r j : String) (rkw jkw : Finset String)
    (h1 : extract_keywords env r = some rkw)
    (h2 : extract_keywords env j = some jkw) :
    calculate_hard_match_score env r j =
      { hard_match_score :=
          min 1 ((if extract_technical_skills j = [] then 0
            else
              max (((extract_technical_skills r).filter
                  (fun s => decide (s ∈ extract_technical_skills j))).length /
                  ((extract_technical_skills j).length : ℚ))
                (((fuzzy_match_skills env.scorer (extract_technical_skills r) 75
                    (extract_technical_skills j)).map (fun e => e.2.2)).sum /
                  ((extract_technical_skills j).length : ℚ) * 0.8)) * 0.6 +
          (if jkw = ∅ then 0 else ((rkw ∩ jkw).card : ℚ) / (jkw.card : ℚ)) * 0.3 +
          (if extract_certifications j = [] then 0
            else ((extract_certifications r).filter
                (fun s => decide (s ∈ extract_certifications j))).length /
              ((extract_certifications j).length : ℚ)) * 0.1)
        skill_matches := (extract_technical_skills r).filter
          (fun s => decide (s ∈ extract_technical_skills j))
        keyword_matches := rkw ∩ jkw
        cert_matches := (extract_certifications r).filter
          (fun s => decide (s ∈ extract_certifications j))
        fuzzy_skill_matches := fuzzy_match_skills env.scorer
          (extract_technical_skills r) 75 (extract_technical_skills j)
        missing_skills := (extract_technical_skills j).filter
          (fun s => decide (s ∉ extract_technical_skills r))
        missing_certs := (extract_certifications j).filter
          (fun s => decide (s ∉ extract_certifications r))
        skill_score := if extract_technical_skills j = [] then 0
          else
            max (((extract_technical_skills r).filter
                (fun s => decide (s ∈ extract_technical_skills j))).length /
                ((extract_technical_skills j).length : ℚ))
              (((fuzzy_match_skills env.scorer (extract_technical_skills r) 75
                  (extract_technical_skills j)).map (fun e => e.2.2)).sum /
                ((extract_technical_skills j).length : ℚ) * 0.8)
        keyword_score := if jkw = ∅ then 0
          else ((rkw ∩ jkw).card : ℚ) / (jkw.card : ℚ)
        cert_score := if extract_certifications j = [] then 0
          else ((extract_certifications r).filter
              (fun s => decide (s ∈ extract_certifications j))).length /
            ((extract_certifications j).length : ℚ) } := by
  unfold calculate_hard_match_score
  rw [h1, h2]

theorem hard_match_eq_zero (env : Env) (r j : String)
    (h : extract_keywords env r = none ∨ extract_keywords env j = none) :
    calculate_hard_match_score env r j = zeroHardResult := by
  unfold calculate_hard_match_score
  rcases h with h | h
  · rw [h]
  · rw [h]
    cases extract_keywords env r <;> rfl

theorem hard_match_score_nonneg (env : Env) (r j : String) :
    0 ≤ (calculate_hard_match_score env r j).hard_match_score := by
  cases h1 : extract_keywords env r with
  | none => rw [hard_match_eq_zero env r j (Or.inl h1)]; norm_num [zeroHardResult]
  | some rkw =>
      cases h2 : extract_keywords env j with
      | none => rw [hard_match_eq_zero env r j (Or.inr h2)]; norm_num [zeroHardResult]
      | some jkw =>
          rw [hard_match_eq env r j rkw jkw h1 h2]
          refine le_min (by norm_num) ?_
          have hsk : (0 : ℚ) ≤ (if extract_technical_skills j = [] then 0
              else
                max (((extract_technical_skills r).filter
                    (fun s => decide (s ∈ extract_technical_skills j))).length /
                    ((extract_technical_skills j).length : ℚ))
                  (((fuzzy_match_skills env.scorer (extract_technical_skills r) 75
                      (extract_technical_skills j)).map (fun e => e.2.2)).sum /
                    ((extract_technical_skills j).length : ℚ) * 0.8)) := by
            split
            · exact le_refl 0
            · refine le_max_of_le_left ?_
              exact div_nonneg (Nat.cast_nonneg _) (Nat.cast_nonneg _)
          have hkw : (0 : ℚ) ≤ (if jkw = ∅ then 0
              else ((rkw ∩ jkw).card : ℚ) / (jkw.card : ℚ)) := by
            split
            · exact le_refl 0
            · exact div_nonneg (Nat.cast_nonneg _) (Nat.cast_nonneg _)
          have hct : (0 : ℚ) ≤ (if extract_certifications j = [] then 0
              else (((extract_certifications r).filter
                  (fun s => decide (s ∈ extract_certifications j))).length : ℚ) /
                ((extract_certifications j).length : ℚ)) := by
            split
            · exact le_refl 0
            · exact div_nonneg (Nat.cast_nonneg _) (Nat.cast_nonneg _)
          have h6 : (0 : ℚ) ≤ 0.6 := by norm_num
          have h3 : (0 : ℚ) ≤ 0.3 := by norm_num
          have h01 : (0 : ℚ) ≤ 0.1 := by norm_num
          positivity

theorem hard_match_score_le_one (env : Env) (r j : String) :
    (calculate_hard_match_score env r j).hard_match_score ≤ 1 := by
  cases h1 : extract_keywords env r with
  | none => rw [hard_match_eq_zero env r j (Or.inl h1)]; norm_num [zeroHardResult]
  | some rkw =>
      cases h2 : extract_keywords env j with
      | none => rw [hard_match_eq_zero env r j (Or.inr h2)]; norm_num [zeroHardResult]
      | some jkw =>
          rw [hard_match_eq env r j rkw jkw h1 h2]
          exact min_le_left 1 _

/-- Default environment used by concrete evaluations: no spaCy model, the
fuzzywuzzy scorer modelled from the spec, no AI services, and a chosen
semantic-similarity function. -/
def envSimple (simf : String → String → ℚ) : Env :=
  { scorer := tokenSortRatioModel, hasNlp := false, nlpKw := fun _ => some ∅,
    sentMatches := fun _ _ => some [], sim := simf, aiSuggest := none,
    insights := fun _ _ => [] }

/-!  Claim theorems. -/

/-- C3: the suitability tier is "High" exactly when the combined score is at
least 0.7, "Medium" exactly when it is in [0.4, 0.7), and "Low" exactly when
it is below 0.4; the boundary values 0.70 and 0.40 classify upward, and
`calculate_combined_score` assigns exactly this tier to its combined score. -/
theorem C3_suitability_tiers :
    (∀ c : ℚ, (suitability c = "High" ↔ 0.7 ≤ c) ∧
      (suitability c = "Medium" ↔ 0.4 ≤ c ∧ c < 0.7) ∧
      (suitability c = "Low" ↔ c < 0.4)) ∧
    suitability 0.7 = "High" ∧ suitability 0.4 = "Medium" ∧
    suitability 0.6999 = "Medium" ∧ suitability 0.3999 = "Low" ∧
    ∀ (env : Env) (hw sw : ℚ) (r j : String),
      (calculate_combined_score env hw sw r j).suitability =
        suitability (calculate_combined_score env hw sw r j).combined_score := by
  refine ⟨?_, ?_, ?_, ?_, ?_, ?_⟩
  · intro c
    unfold suitability
    by_cases h7 : (0.7 : ℚ) ≤ c
    · rw [if_pos h7]
      refine ⟨⟨fun _ => h7, fun _ => rfl⟩, ⟨fun h => absurd h (by decide), ?_⟩,
        fun h => absurd h (by decide), fun h => absurd (lt_of_le_of_lt h7 h) (by norm_num)⟩
      rintro ⟨_, hlt⟩
      exact absurd h7 (not_le.mpr hlt)
    · rw [if_neg h7]
      by_cases h4 : (0.4 : ℚ) ≤ c
      · rw [if_pos h4]
        refine ⟨⟨fun h => absurd h (by decide), fun hc => absurd hc h7⟩,
          ⟨fun _ => ⟨h4, not_le.mp h7⟩, fun _ => rfl⟩,
          fun h => absurd h (by decide), fun h => absurd h4 (not_le.mpr h)⟩
      · rw [if_neg h4]
        refine ⟨⟨fun h => absurd h (by decide), fun hc => absurd hc h7⟩,
          ⟨fun h => absurd h (by decide), fun hc => absurd hc.1 h4⟩,
          fun _ => not_le.mp h4, fun _ => rfl⟩
  · rw [suitability, if_pos (by norm_num)]
  · rw [suitability, if_neg (by norm_num), if_pos (by norm_num)]
  · rw [suitability, if_neg (by norm_num), if_pos (by norm_num)]
  · rw [suitability, if_neg (by norm_num), if_neg (by norm_num)]
  · intro env hw sw r j
    rfl

/-- C1: on every pair of texts (whenever the spaCy keyword extraction does
not raise, the only fallible step), the hard-match components satisfy the
specified formulas: `skillScore` is 0 when the job skill set is empty and
otherwise `max(exactCoverage, 0.8 × fuzzyCoverage)` with both coverages
normalized by the job skill set cardinality; `keywordScore` and `certScore`
are the exact-intersection coverages with the same empty-set-means-0 rule;
and `hardMatchScore = clamp(skillScore×0.6 + keywordScore×0.3 +
certScore×0.1, 0, 1)`. -/
theorem C1_hard_match_score_formula :
    ∀ (env : Env) (r j : String) (rkw jkw : Finset String),
    extract_keywords env r = some rkw → extract_keywords env j = some jkw →
    ((calculate_hard_match_score env r j).skill_score =
      (if (extract_technical_skills j).toFinset = ∅ then 0
       else
        max ((((extract_technical_skills r).toFinset ∩
            (extract_technical_skills j).toFinset).card : ℚ) /
            ((extract_technical_skills j).toFinset.card : ℚ))
          (0.8 * (((calculate_hard_match_score env r j).fuzzy_skill_matches.map
              (fun e => e.2.2)).sum /
            ((extract_technical_skills j).toFinset.card : ℚ)))) ∧
    (calculate_hard_match_score env r j).keyword_score =
      (if jkw = ∅ then 0 else ((rkw ∩ jkw).card : ℚ) / (jkw.card : ℚ)) ∧
    (calculate_hard_match_score env r j).cert_score =
      (if (extract_certifications j).toFinset = ∅ then 0
       else (((extract_certifications r).toFinset ∩
          (extract_certifications j).toFinset).card : ℚ) /
        ((extract_certifications j).toFinset.card : ℚ)) ∧
    (calculate_hard_match_score env r j).hard_match_score =
      max 0 (min 1 ((calculate_hard_match_score env r j).skill_score * 0.6 +
        (calculate_hard_match_score env r j).keyword_score * 0.3 +
        (calculate_hard_match_score env r j).cert_score * 0.1))) := by
  intro env r j rkw jkw h1 h2
  rw [hard_match_eq env r j rkw jkw h1 h2]
  dsimp only
  have hsknd := extract_technical_skills_nodup r
  have hsknd2 := extract_technical_skills_nodup j
  have hctnd := extract_certifications_nodup r
  have hctnd2 := extract_certifications_nodup j
  refine ⟨?_, rfl, ?_, ?_⟩
  · by_cases hjs : extract_technical_skills j = []
    · rw [if_pos hjs, if_pos (by rw [hjs]; rfl)]
    · rw [if_neg hjs, if_neg (by
        intro hcon
        exact hjs (by simpa [List.toFinset_eq_empty_iff] using hcon))]
      rw [filter_mem_length _ _ hsknd, List.toFinset_card_of_nodup hsknd2]
      ring_nf
  · by_cases hjc : extract_certifications j = []
    · rw [if_pos hjc, if_pos (by rw [hjc]; rfl)]
    · rw [if_neg hjc, if_neg (by
        intro hcon
        exact hjc (by simpa [List.toFinset_eq_empty_iff] using hcon))]
      rw [filter_mem_length _ _ hctnd, List.toFinset_card_of_nodup hctnd2]
  · refine (max_eq_right ?_).symm
    refine le_min (by norm_num) ?_
    have hS : (0 : ℚ) ≤ (if extract_technical_skills j = [] then 0
        else
          max ((((extract_technical_skills r).filter
              (fun s => decide (s ∈ extract_technical_skills j))).length : ℚ) /
              ((extract_technical_skills j).length : ℚ))
            ((((fuzzy_match_skills env.scorer (extract_technical_skills r) 75
                (extract_technical_skills j)).map (fun e => e.2.2)).sum) /
              ((extract_technical_skills j).length : ℚ) * 0.8)) := by
      split
      · exact le_refl 0
      · exact le_max_of_le_left (div_nonneg (Nat.cast_nonneg _) (Nat.cast_nonneg _))
    have hK : (0 : ℚ) ≤ (if jkw = ∅ then 0
        else ((rkw ∩ jkw).card : ℚ) / (jkw.card : ℚ)) := by
      split
      · exact le_refl 0
      · exact div_nonneg (Nat.cast_nonneg _) (Nat.cast_nonneg _)
    have hC : (0 : ℚ) ≤ (if extract_certifications j = [] then 0
        else (((extract_certifications r).filter
            (fun s => decide (s ∈ extract_certifications j))).length : ℚ) /
          ((extract_certifications j).length : ℚ)) := by
      split
      · exact le_refl 0
      · exact div_nonneg (Nat.cast_nonneg _) (Nat.cast_nonneg _)
    exact add_nonneg (add_nonneg (mul_nonneg hS (by norm_num))
      (mul_nonneg hK (by norm_num))) (mul_nonneg hC (by norm_num))

/-- Witness for C1 at a concrete input: an environment without spaCy, resume
text "java", job text "python java"; the extraction hypotheses hold by
computation. -/
theorem C1_hard_match_score_formula_witness :
    (calculate_hard_match_score (envSimple (fun _ _ => 0)) "java"
      "python java").hard_match_score =
      max 0 (min 1
        ((calculate_hard_match_score (envSimple (fun _ _ => 0)) "java"
            "python java").skill_score * 0.6 +
         (calculate_hard_match_score (envSimple (fun _ _ => 0)) "java"
            "python java").keyword_score * 0.3 +
         (calculate_hard_match_score (envSimple (fun _ _ => 0)) "java"
            "python java").cert_score * 0.1)) :=
  (C1_hard_match_score_formula (envSimple (fun _ _ => 0)) "java" "python java"
    _ _ rfl rfl).2.2.2

/-- C2 (amended): `calculate_combined_score` returns
`hardMatchScore × hardWeight + semanticMatchScore × semanticWeight`; the
configured default weights 0.4/0.6 sum to 1; and whenever the weights are
nonnegative and sum to 1 and the semantic sub-score lies in [0,1] (the hard
sub-score always does), the combined score lies in [0,1].  The original
claim's bound fails for weights that sum to 1 but are not nonnegative — see
the counterexample. -/
theorem C2_combined_score_fusion :
    ∀ (env : Env) (hw sw : ℚ) (r j : String),
    0 ≤ hw → 0 ≤ sw → hw + sw = 1 →
    0 ≤ (calculate_semantic_match_score env r j).semantic_match_score →
    (calculate_semantic_match_score env r j).semantic_match_score ≤ 1 →
    ((calculate_combined_score env hw sw r j).combined_score =
      (calculate_hard_match_score env r j).hard_match_score * hw +
        (calculate_semantic_match_score env r j).semantic_match_score * sw ∧
     hard_match_weight + semantic_match_weight = 1 ∧
     0 ≤ (calculate_combined_score env hw sw r j).combined_score ∧
     (calculate_combined_score env hw sw r j).combined_score ≤ 1) := by
  intro env hw sw r j hhw hsw hsum hs0 hs1
  have hh0 := hard_match_score_nonneg env r j
  have hh1 := hard_match_score_le_one env r j
  refine ⟨rfl, by norm_num [hard_match_weight, semantic_match_weight], ?_, ?_⟩
  · show (0 : ℚ) ≤ (calculate_hard_match_score env r j).hard_match_score * hw +
      (calculate_semantic_match_score env r j).semantic_match_score * sw
    exact add_nonneg (mul_nonneg hh0 hhw) (mul_nonneg hs0 hsw)
  · show (calculate_hard_match_score env r j).hard_match_score * hw +
      (calculate_semantic_match_score env r j).semantic_match_score * sw ≤ 1
    calc (calculate_hard_match_score env r j).hard_match_score * hw +
        (calculate_semantic_match_score env r j).semantic_match_score * sw
        ≤ hw + sw := add_le_add (mul_le_of_le_one_left hhw hh1)
          (mul_le_of_le_one_left hsw hs1)
      _ = 1 := hsum

/-- Witness for C2 at a concrete input: the default weights 0.4/0.6 and an
environment whose semantic similarity is constantly 0. -/
theorem C2_combined_score_fusion_witness :
    0 ≤ (calculate_combined_score (envSimple (fun _ _ => 0)) 0.4 0.6
      "python" "python").combined_score ∧
    (calculate_combined_score (envSimple (fun _ _ => 0)) 0.4 0.6
      "python" "python").combined_score ≤ 1 :=
  ⟨(C2_combined_score_fusion (envSimple (fun _ _ => 0)) 0.4 0.6 "python"
      "python" (by norm_num) (by norm_num) (by norm_num) (le_refl 0)
      (show (0 : ℚ) ≤ 1 by norm_num)).2.2.1,
   (C2_combined_score_fusion (envSimple (fun _ _ => 0)) 0.4 0.6 "python"
      "python" (by norm_num) (by norm_num) (by norm_num) (le_refl 0)
      (show (0 : ℚ) ≤ 1 by norm_num)).2.2.2⟩

/-- C2 counterexample: with weights 2 and −1 (which sum to 1) and sub-scores
9/10 and 0 (both inside [0,1]), the combined score is 9/5, outside [0,1]; so
the claim's bound, stated for weights that merely sum to 1, is false on the
code — nonnegativity of the weights is also required. -/
theorem C2_combined_score_counterexample :
    (2 : ℚ) + (-1) = 1 ∧
    (calculate_hard_match_score (envSimple (fun _ _ => 0)) "python"
      "python").hard_match_score = 9 / 10 ∧
    (calculate_semantic_match_score (envSimple (fun _ _ => 0)) "python"
      "python").semantic_match_score = 0 ∧
    (calculate_combined_score (envSimple (fun _ _ => 0)) 2 (-1) "python"
      "python").combined_score = 9 / 5 ∧
    ¬((calculate_combined_score (envSimple (fun _ _ => 0)) 2 (-1) "python"
      "python").combined_score ≤ 1) := by
  have e1 : extract_technical_skills "python" = ["python"] := by decide
  have e2 : extract_certifications "python" = [] := by decide
  have e4 : extractOne tokenSortRatioModel "python" ["python"] =
      some ("python", 100) := by decide
  have e5 : fuzzy_match_skills tokenSortRatioModel ["python"] 75 ["python"] =
      [("python", "python", ((100 : ℕ) : ℚ) / 100)] := by
    simp only [fuzzy_match_skills, e4]
    rw [if_pos (by norm_num)]
  have e6 : (["python"] : List String).filter
      (fun s => decide (s ∈ (["python"] : List String))) = ["python"] := by decide
  have hhard : (calculate_hard_match_score (envSimple (fun _ _ => 0)) "python"
      "python").hard_match_score = 9 / 10 := by
    rw [hard_match_eq (envSimple (fun _ _ => 0)) "python" "python"
      {"python"} {"python"} (by decide) (by decide)]
    dsimp only [envSimple]
    rw [e1, e2, e5, e6]
    rw [if_neg (by decide), if_neg (by decide), if_pos rfl]
    norm_num
  have hsem : (calculate_semantic_match_score (envSimple (fun _ _ => 0))
      "python" "python").semantic_match_score = 0 := rfl
  have hcomb : (calculate_combined_score (envSimple (fun _ _ => 0)) 2 (-1)
      "python" "python").combined_score =
      (calculate_hard_match_score (envSimple (fun _ _ => 0)) "python"
        "python").hard_match_score * 2 +
      (calculate_semantic_match_score (envSimple (fun _ _ => 0)) "python"
        "python").semantic_match_score * (-1) := rfl
  refine ⟨by norm_num, hhard, hsem, ?_, ?_⟩
  · rw [hcomb, hhard, hsem]
    norm_num
  · rw [hcomb, hhard, hsem]
    norm_num

/-- A trivial concrete scorer used for witnesses: 100 for identical strings,
0 otherwise. -/
def eqScorer (a b : String) : ℕ := if a = b then 100 else 0

/-- C4: for every scorer, candidate skill list, job skill list and threshold,
`fuzzy_match_skills` (i) has no duplicate job-skill keys when the job list
has none; (ii) maps a job skill only to a best-scoring candidate skill whose
0–100 score meets the threshold, storing the score divided by 100; and
(iii) omits a job skill entirely when no candidate skill meets the
threshold (in particular when the candidate list is empty). -/
theorem C4_fuzzy_match_properties :
    ∀ (scorer : String → String → ℕ) (rs js : List String) (t : ℕ),
    (js.Nodup → ((fuzzy_match_skills scorer rs t js).map (fun e => e.1)).Nodup) ∧
    (∀ (j m : String) (q : ℚ),
      (fuzzy_match_skills scorer rs t js).lookup j = some (m, q) →
      j ∈ js ∧ m ∈ rs ∧ t ≤ scorer j m ∧ q = (scorer j m : ℚ) / 100 ∧
        ∀ c ∈ rs, scorer j c ≤ scorer j m) ∧
    (∀ j : String, (∀ c ∈ rs, scorer j c < t) →
      (fuzzy_match_skills scorer rs t js).lookup j = none) := by
  intro scorer rs js t
  refine ⟨?_, ?_, ?_⟩
  · intro hnd
    exact hnd.sublist (fms_keys_sublist js)
  · intro j m q h
    exact fms_lookup_some h
  · intro j h
    exact fms_lookup_none h

/-- Witness for C4 at a concrete input: candidate skills `["python"]`, job
skills `["python", "java"]`, threshold 75, a scorer giving 100 to identical
strings and 0 otherwise. -/
theorem C4_fuzzy_match_properties_witness :
    ((fuzzy_match_skills eqScorer ["python"] 75 ["python", "java"]).map
      (fun e => e.1)).Nodup ∧
    ("python" ∈ (["python", "java"] : List String) ∧
      "python" ∈ (["python"] : List String) ∧
      75 ≤ eqScorer "python" "python" ∧
      ((100 : ℕ) : ℚ) / 100 = (eqScorer "python" "python" : ℚ) / 100 ∧
      ∀ c ∈ (["python"] : List String),
        eqScorer "python" c ≤ eqScorer "python" "python") ∧
    (fuzzy_match_skills eqScorer ["python"] 75 ["python", "java"]).lookup
      "java" = none :=
  ⟨(C4_fuzzy_match_properties eqScorer ["python"] ["python", "java"] 75).1
      (by decide),
   (C4_fuzzy_match_properties eqScorer ["python"] ["python", "java"] 75).2.1
      "python" "python" (((100 : ℕ) : ℚ) / 100) rfl,
   (C4_fuzzy_match_properties eqScorer ["python"] ["python", "java"] 75).2.2
      "java" (by decide)⟩

/-- C5 counterexample: with resume and job text both "python", the job skill
"python" is exactly matched (it is in `skill_matches`) and yet it is
submitted to the fuzzy matcher, which returns it with similarity 1.0 — the
code passes the full job skill list to `fuzzy_match_skills`, not only the
skills that are missing verbatim, refuting the claim. -/
theorem C5_fuzzy_on_exact_counterexample :
    "python" ∈ (calculate_hard_match_score (envSimple (fun _ _ => 0))
      "python" "python").skill_matches ∧
    ((calculate_hard_match_score (envSimple (fun _ _ => 0)) "python"
      "python").fuzzy_skill_matches).lookup "python" =
      some ("python", ((100 : ℕ) : ℚ) / 100) :=
  ⟨by decide, rfl⟩

/-- C5 (amended): in hard-match scoring the fuzzy matcher receives the full
job skill list — including the job skills already exactly matched (with
threshold 75); in particular an exactly matched job skill whose
self-similarity meets the threshold always obtains a fuzzy entry. -/
theorem C5_fuzzy_full_job_list :
    ∀ (env : Env) (r j : String) (rkw jkw : Finset String),
    extract_keywords env r = some rkw → extract_keywords env j = some jkw →
    ((calculate_hard_match_score env r j).fuzzy_skill_matches =
      fuzzy_match_skills env.scorer (extract_technical_skills r) 75
        (extract_technical_skills j) ∧
     ∀ s, s ∈ (calculate_hard_match_score env r j).skill_matches →
       75 ≤ env.scorer s s →
       (((calculate_hard_match_score env r j).fuzzy_skill_matches).lookup
         s).isSome) := by
  intro env r j rkw jkw h1 h2
  rw [hard_match_eq env r j rkw jkw h1 h2]
  dsimp only
  refine ⟨rfl, ?_⟩
  intro s hs hscore
  have hmem := List.mem_filter.mp hs
  have hsr : s ∈ extract_technical_skills r := hmem.1
  have hsj : s ∈ extract_technical_skills j := by simpa using hmem.2
  cases he : extractOne env.scorer s (extract_technical_skills r) with
  | none =>
      exact absurd hsr (by rw [extractOne_eq_none he]; simp)
  | some r0 =>
      obtain ⟨b, sc⟩ := r0
      have hb := extractOne_some he
      exact fms_lookup_isSome hsj he (le_trans hscore (hb.2.2 s hsr))

/-- Witness for C5 (amended) at a concrete input: resume and job text both
"python"; the exactly matched skill has a fuzzy entry. -/
theorem C5_fuzzy_full_job_list_witness :
    (((calculate_hard_match_score (envSimple (fun _ _ => 0)) "python"
      "python").fuzzy_skill_matches).lookup "python").isSome :=
  (C5_fuzzy_full_job_list (envSimple (fun _ _ => 0)) "python" "python" _ _
    rfl rfl).2 "python" (by decide) (by decide)

/-- C10: `missing_skills` is exactly the set difference
`jobSkills \ resumeSkills` of the exact extracted skill sets; a job skill
with a fuzzy match that is not in the resume skill set still appears in
`missing_skills`; and the feedback generator's missing-skill list is this
same list. -/
theorem C10_missing_skills :
    ∀ (env : Env) (r j : String) (rkw jkw : Finset String),
    extract_keywords env r = some rkw → extract_keywords env j = some jkw →
    ((calculate_hard_match_score env r j).missing_skills.toFinset =
      (extract_technical_skills j).toFinset \
        (extract_technical_skills r).toFinset ∧
     (∀ (s m : String) (q : ℚ),
       ((calculate_hard_match_score env r j).fuzzy_skill_matches).lookup s =
          some (m, q) →
       s ∉ extract_technical_skills r →
       s ∈ (calculate_hard_match_score env r j).missing_skills) ∧
     ∀ sem : SemanticResult,
       (generate_feedback env (calculate_hard_match_score env r j)
         sem).missing_skills =
         (calculate_hard_match_score env r j).missing_skills) := by
  intro env r j rkw jkw h1 h2
  rw [hard_match_eq env r j rkw jkw h1 h2]
  dsimp only
  refine ⟨filter_not_mem_toFinset _ _, ?_, fun sem => rfl⟩
  intro s m q hl hnr
  have hs := fms_lookup_some hl
  exact List.mem_filter.mpr ⟨hs.1, by simpa using hnr⟩

/-- Environment with a constant scorer of 80, used to witness a fuzzy match
that is not an exact match. -/
def env80 : Env :=
  { scorer := fun _ _ => 80, hasNlp := false, nlpKw := fun _ => some ∅,
    sentMatches := fun _ _ => some [], sim := fun _ _ => 0, aiSuggest := none,
    insights := fun _ _ => [] }

/-- Witness for C10 at a concrete input: resume "java", job "python java"
under a constant-80 scorer; "python" is fuzzy-matched to "java" but not
exactly matched, and it appears in `missing_skills`. -/
theorem C10_missing_skills_witness :
    "python" ∈ (calculate_hard_match_score env80 "java"
      "python java").missing_skills :=
  (C10_missing_skills env80 "java" "python java" _ _ rfl rfl).2.1 "python"
    "java" (((80 : ℕ) : ℚ) / 100) rfl (by decide)

/-- The `except` branch of `calculate_semantic_match_score`: spaCy present
but the sentence-analysis block raises. -/
theorem semantic_eq_fail (env : Env) (r j : String) (h1 : env.hasNlp = true)
    (h2 : env.sentMatches r j = none) :
    calculate_semantic_match_score env r j =
      { semantic_match_score := 0, sentence_matches := [] } := by
  unfold calculate_semantic_match_score
  rw [h1, h2]
  rfl

/-- C6 (amended): batch processing scores every well-formed candidate and
returns the entries sorted by descending combined score with ties kept in
input order (a stable sort, matching Python's `sort(key=..., reverse=True)`).
No candidate is excluded: the scoring functions catch their own internal
errors and return defaulted results instead of raising, so a candidate whose
sentence analysis raises is included with semantic score 0 rather than
skipped.  (The original claim's "skipped and excluded" is refuted by the
counterexample.) -/
theorem C6_batch_ranking :
    ∀ (env : Env) (hw sw : ℚ) (job : String) (cands : List Candidate),
    List.Perm (batch_process_resumes env hw sw job cands)
      (cands.map (fun r =>
        { result := calculate_combined_score env hw sw r.text job
          resume_id := r.id
          resume_metadata := r.metadata })) ∧
    (batch_process_resumes env hw sw job cands).Pairwise
      (fun a b => b.result.combined_score ≤ a.result.combined_score) ∧
    (∀ q : ℚ, (batch_process_resumes env hw sw job cands).filter
        (fun e => decide (e.result.combined_score = q)) =
      (cands.map (fun r =>
        ({ result := calculate_combined_score env hw sw r.text job
           resume_id := r.id
           resume_metadata := r.metadata } : BatchEntry))).filter
        (fun e => decide (e.result.combined_score = q))) ∧
    (∀ c ∈ cands, env.hasNlp = true → env.sentMatches c.text job = none →
      ∃ e ∈ batch_process_resumes env hw sw job cands,
        e.resume_id = c.id ∧
        e.result.semantic_match_results.semantic_match_score = 0) := by
  intro env hw sw job cands
  refine ⟨sortDescByScore_perm _, sortDescByScore_sorted _,
    fun q => sortDescByScore_filter _ q, ?_⟩
  intro c hc h1 h2
  refine ⟨{ result := calculate_combined_score env hw sw c.text job
            resume_id := c.id
            resume_metadata := c.metadata }, ?_, rfl, ?_⟩
  · exact (sortDescByScore_perm _).mem_iff.mpr (List.mem_map_of_mem _ hc)
  · show (calculate_semantic_match_score env c.text job).semantic_match_score = 0
    rw [semantic_eq_fail env c.text job h1 h2]

/-- Environment for the C6 counterexample: candidate texts "aaa"/"bbb"/"ccc"
against job "zzz"; the sentence analysis raises exactly on "ccc". -/
def envC6 : Env :=
  { scorer := tokenSortRatioModel, hasNlp := true, nlpKw := fun _ => some ∅,
    sentMatches := fun r _ => if r = "ccc" then none else some [],
    sim := fun r _ => if r = "aaa" then 0.9 else if r = "bbb" then 0.3 else 0.7,
    aiSuggest := none, insights := fun _ _ => [] }

/-- Candidates A, B, C for the C6 counterexample. -/
def candsC6 : List Candidate :=
  [{ id := "A", text := "aaa", metadata := [] },
   { id := "B", text := "bbb", metadata := [] },
   { id := "C", text := "ccc", metadata := [] }]

/-- C6 counterexample: candidate C's scoring raises an error internally (its
sentence-analysis call fails), yet the batch output is NOT `[A, B]`: it has
all three entries and contains an entry for C — the error is absorbed inside
`calculate_combined_score` (defaulted semantic score), so the candidate is
included, refuting "skipped and excluded from the output". -/
theorem C6_error_candidate_included_counterexample :
    envC6.sentMatches "ccc" "zzz" = none ∧
    (batch_process_resumes envC6 hard_match_weight semantic_match_weight
      "zzz" candsC6).length = 3 ∧
    ∃ e ∈ batch_process_resumes envC6 hard_match_weight semantic_match_weight
      "zzz" candsC6, e.resume_id = "C" := by
  refine ⟨rfl, ?_, ?_⟩
  · show (sortDescByScore (candsC6.map (fun r =>
        ({ result := calculate_combined_score envC6 hard_match_weight
             semantic_match_weight r.text "zzz"
           resume_id := r.id
           resume_metadata := r.metadata } : BatchEntry)))).length = 3
    rw [(sortDescByScore_perm _).length_eq]
    rfl
  · refine ⟨{ result := calculate_combined_score envC6 hard_match_weight
                semantic_match_weight "ccc" "zzz"
              resume_id := "C"
              resume_metadata := [] }, ?_, rfl⟩
    refine (sortDescByScore_perm _).mem_iff.mpr ?_
    exact List.mem_map.mpr ⟨{ id := "C", text := "ccc", metadata := [] },
      by simp [candsC6], rfl⟩

/-- Witness for C6 at a concrete input: candidate C of the concrete batch
satisfies the error hypotheses and is included with semantic score 0. -/
theorem C6_batch_ranking_witness :
    ∃ e ∈ batch_process_resumes envC6 hard_match_weight semantic_match_weight
      "zzz" candsC6,
      e.resume_id = "C" ∧
      e.result.semantic_match_results.semantic_match_score = 0 :=
  (C6_batch_ranking envC6 hard_match_weight semantic_match_weight "zzz"
    candsC6).2.2.2 { id := "C", text := "ccc", metadata := [] }
    (by simp [candsC6]) rfl rfl

/-!  C7: the embedding service on degenerate input. -/

theorem pyMul_zero_zero :
    pyMul (PyFloat.num 0) (PyFloat.num 0) = PyFloat.num 0 := by
  show PyFloat.num (0 * 0) = PyFloat.num 0
  norm_num

theorem pyDiv_zero_zero : pyDiv (PyFloat.num 0) (PyFloat.num 0) = PyFloat.nan := by
  simp [pyDiv]

theorem nan_clamp_one :
    pymax (PyFloat.num 0) (pymin (PyFloat.num 1)
      (pyDiv (pyAdd PyFloat.nan (PyFloat.num 1)) (PyFloat.num 2))) =
    PyFloat.num 1 := by
  have h1 : pyAdd PyFloat.nan (PyFloat.num 1) = PyFloat.nan := rfl
  have h2 : pyDiv PyFloat.nan (PyFloat.num 2) = PyFloat.nan := rfl
  rw [h1, h2]
  have h3 : pymin (PyFloat.num 1) PyFloat.nan = PyFloat.num 1 := by
    rw [pymin]
    rw [if_neg (by simp [pyLt])]
  rw [h3]
  rw [pymax]
  rw [if_pos (by simp [pyLt])]

/-- C7 (amended): generating an embedding for input that normalizes to the
empty string (empty or whitespace-only) returns the zero vector of the
provider's dimension without invoking the model — the statement holds for
every `encode` function, including one that always raises; and the
similarity of the zero vector with itself performs the division 0/0,
producing `nan` without raising, which the clamp
`max(0, min(1, (nan+1)/2))` maps to 1.0 — not to 0.0 as the original claim
states (see the counterexample). -/
theorem C7_empty_embedding_zero_vector :
    ∀ (m : STModel) (norm : List PyFloat → PyFloat),
    norm (npZeros m.dim) = PyFloat.num 0 →
    (generate_embedding m "" = npZeros m.dim ∧
     generate_embedding m "   " = npZeros m.dim ∧
     (∀ t, preprocess_text t = "" → generate_embedding m t = npZeros m.dim) ∧
     calculate_semantic_similarity m norm "" "" = PyFloat.num 1) := by
  intro m norm hn
  have hempty : ∀ t, preprocess_text t = "" →
      generate_embedding m t = npZeros m.dim := by
    intro t ht
    unfold generate_embedding
    rw [ht]
    rfl
  refine ⟨hempty "" rfl, hempty "   " (by decide), hempty, ?_⟩
  show pymax (PyFloat.num 0) (pymin (PyFloat.num 1)
    (pyDiv (pyAdd (pyDiv
      (npDot (generate_embedding m "") (generate_embedding m ""))
      (pyMul (norm (generate_embedding m "")) (norm (generate_embedding m ""))))
      (PyFloat.num 1)) (PyFloat.num 2))) = PyFloat.num 1
  rw [hempty "" rfl, npDot_zeros, hn, pyMul_zero_zero, pyDiv_zero_zero,
    nan_clamp_one]

/-- Concrete sentence-transformer model for the C7 counterexample:
dimension 3, `encode` always raising (it is never invoked on the exercised
inputs). -/
def stModel0 : STModel := { dim := 3, encode := fun _ => none }

/-- Concrete stand-in for `np.linalg.norm`, agreeing with it on the only
inputs exercised (zero vectors, where the true norm is exactly 0). -/
def norm0 (v : List PyFloat) : PyFloat :=
  if v = npZeros 3 then PyFloat.num 0 else PyFloat.nan

/-- C7 counterexample: the embedding of "" is the zero vector, and the
similarity of the zero vector with itself evaluates to 1.0, not 0.0: the
code divides `np.dot(z, z) = 0.0` by `norm(z)·norm(z) = 0.0`, producing
`nan` (a warning, not an exception), and CPython's
`max(0, min(1, (nan+1)/2))` returns 1.0 because comparisons against `nan`
are false — refuting "defined as 0.0 by convention". -/
theorem C7_zero_similarity_counterexample :
    generate_embedding stModel0 "" = npZeros 3 ∧
    calculate_semantic_similarity stModel0 norm0 "" "" = PyFloat.num 1 ∧
    PyFloat.num 1 ≠ PyFloat.num 0 := by
  have hnorm : norm0 (npZeros 3) = PyFloat.num 0 := by
    rw [norm0, if_pos rfl]
  have hz : generate_embedding stModel0 "" = npZeros 3 := rfl
  refine ⟨hz, ?_, by decide⟩
  show pymax (PyFloat.num 0) (pymin (PyFloat.num 1)
    (pyDiv (pyAdd (pyDiv
      (npDot (generate_embedding stModel0 "") (generate_embedding stModel0 ""))
      (pyMul (norm0 (generate_embedding stModel0 ""))
        (norm0 (generate_embedding stModel0 ""))))
      (PyFloat.num 1)) (PyFloat.num 2))) = PyFloat.num 1
  rw [hz, npDot_zeros, hnorm, pyMul_zero_zero, pyDiv_zero_zero, nan_clamp_one]

/-- Witness for C7 at a concrete input: the model of dimension 3 and the
concrete norm function (0 on the zero vector). -/
theorem C7_empty_embedding_zero_vector_witness :
    generate_embedding stModel0 "   " = npZeros 3 :=
  (C7_empty_embedding_zero_vector stModel0 norm0
    (by show norm0 (npZeros 3) = PyFloat.num 0; rw [norm0, if_pos rfl])).2.1

/-!  C8: text normalization. -/

/-- C8 (amended): `preprocess_text` lowercases (no ASCII uppercase letter
survives), collapses whitespace (no two adjacent spaces, no leading or
trailing space), strips URLs, email addresses and phone numbers, and strips
ALL non-alphanumeric punctuation — including sentence-ending periods —
replacing it with spaces: every output character is a word character or a
single space.  (The original claim's "preserving sentence-ending
punctuation" is refuted by the counterexample.) -/
theorem C8_preprocess_normalization :
    ∀ t : String,
    (∀ c ∈ (preprocess_text t).data, isWordChar c = true ∨ c = ' ') ∧
    (preprocess_text t).data.Chain' (fun a b => ¬(a = ' ' ∧ b = ' ')) ∧
    (∀ c ∈ (preprocess_text t).data, c ∉ upperChars) ∧
    (∀ c, (preprocess_text t).data.head? = some c → c ≠ ' ') ∧
    (∀ c, (preprocess_text t).data.getLast? = some c → c ≠ ' ') ∧
    preprocess_text "see https://abc.com now" = "see now" ∧
    preprocess_text "mail a.b@c.io now" = "mail now" ∧
    preprocess_text "call 123-456-7890 ok" = "call ok" := by
  intro t
  have h := preprocess_text_props t
  exact ⟨h.1, h.2.1, h.2.2.1, h.2.2.2.1, h.2.2.2.2, by decide, by decide,
    by decide⟩

/-- Witness for C8 at a concrete input: the character 'a' of
`preprocess_text "A. b" = "a b"` is a word character and not uppercase. -/
theorem C8_preprocess_normalization_witness :
    (isWordChar 'a' = true ∨ 'a' = ' ') ∧ 'a' ∉ upperChars :=
  ⟨(C8_preprocess_normalization "A. b").1 'a' (by decide),
   (C8_preprocess_normalization "A. b").2.2.1 'a' (by decide)⟩

/-- C8 counterexample: "Hello. World" contains a sentence-ending period, but
`preprocess_text` strips it — the `re.sub(r'[^\w\s]', ' ', ...)` pass
replaces every punctuation character with a space — yielding "hello world"
with no period, refuting "preserving sentence-ending punctuation (e.g.
periods) in the output". -/
theorem C8_period_stripped_counterexample :
    preprocess_text "Hello. World" = "hello world" ∧
    '.' ∈ "Hello. World".data ∧
    '.' ∉ (preprocess_text "Hello. World").data :=
  ⟨by decide, by decide, by decide⟩

end RRCS
